import Mathlib

/-!
# tsh: a tiny shell with job control (`src/tsh.c`)

A shallow embedding of the job-control core of `tsh.c`: the job list and its
helper routines, the three signal handlers, `waitfg`, `do_bgfg`,
`builtin_cmd`, `parseline` and `eval`.

Conventions of the embedding.

* C `int` and `pid_t` values are `Int`.  The job-list code only increments
  `nextjid` and negates process ids, and signed overflow is undefined in C, so
  no wrap-around is modelled for them.
* A C string is a `String` holding the characters before the terminating NUL.
  Buffers are not bounded: command lines are shorter than `MAXLINE`, as `fgets`
  delivers them, so the `strcpy` calls stay within their arrays.
* The global variables `jobs`, `nextjid` and `verbose` are the fields of `World`,
  which is threaded through every function.  `World.trace` logs, in program
  order, what the shell prints, the system calls it makes and the entries to
  `addjob`, `deletejob` and `waitfg`.
* A pointer `&jobs[i]` is the index `i`; the NULL pointer is `none`.
* What the operating system decides (the value `fork` returns, whether `execve`
  fails, which child state changes `waitpid` reports) is an argument.
* `eval`, a run of a signal handler and one evaluation of the loop condition of
  `waitfg` are the atomic steps of the transition system `step`.
* Inside `eval` a signal handler can run only where SIGCHLD is unblocked again,
  between `sigprocmask(SIG_UNBLOCK, ...)` and the statement after it;
  `eval_with_sigchld` is `eval` with the SIGCHLD handler run at that point on the
  child state changes pending there.
-/

namespace Tsh

/-! ## Manifest constants -/

/-- Max line size. -/
def MAXLINE : Nat := 1024
/-- Max args on a command line. -/
def MAXARGS : Nat := 128
/-- Max jobs at any point in time. -/
def MAXJOBS : Nat := 16

/-- Job state: undefined. -/
def UNDEF : Int := 0
/-- Job state: running in foreground. -/
def FG : Int := 1
/-- Job state: running in background. -/
def BG : Int := 2
/-- Job state: stopped. -/
def ST : Int := 3

/-- Signal number of SIGINT (Linux). -/
def SIGINT : Int := 2
/-- Signal number of SIGCHLD (Linux). -/
def SIGCHLD : Int := 17
/-- Signal number of SIGCONT (Linux). -/
def SIGCONT : Int := 18
/-- Signal number of SIGTSTP (Linux). -/
def SIGTSTP : Int := 20
/-- The `how` argument SIG_BLOCK of sigprocmask (Linux). -/
def SIG_BLOCK : Int := 0
/-- The `how` argument SIG_UNBLOCK of sigprocmask (Linux). -/
def SIG_UNBLOCK : Int := 1

/-! ## Data model -/

/-- The job struct. -/
structure job_t where
  pid : Int
  jid : Int
  state : Int
  cmdline : String
deriving DecidableEq, Repr

/-- One logged step of the shell: output, a system call, or the entry to one of
the job-list routines that the launcher's ordering discipline is about. -/
inductive Ev where
  | printf (s : String)
  | kill (pid : Int) (sig : Int)
  | sigprocmask (how : Int) (set : List Int)
  | fork (ret : Int)
  | setpgid (pid : Int) (pgid : Int)
  | execve (path : String) (argv : List String)
  | sleep (secs : Int)
  | addjob (pid : Int) (state : Int) (cmdline : String)
  | deletejob (pid : Int)
  | waitfg (pid : Int)
deriving DecidableEq, Repr

/-- The global variables of the program together with the log of its effects. -/
structure World where
  jobs : List job_t
  nextjid : Int
  verbose : Int
  trace : List Ev
deriving DecidableEq, Repr

/-- How a call of the main control path ends. -/
inductive Ctl where
  /-- the function returned to its caller -/
  | ret
  /-- control is inside the loop of `waitfg`, which polls slot `slot` -/
  | wait (slot : Nat)
  /-- undefined behaviour: a NULL pointer was dereferenced or a buffer overrun -/
  | fault
  /-- `exit(code)` was called -/
  | exit (code : Int)
  /-- `execve` succeeded: the (child) process now runs another program -/
  | exec
deriving DecidableEq, Repr

/-- The status word that `waitpid(-1, &status, WNOHANG | WUNTRACED)` reports,
classified the way the macros WIFEXITED, WIFSIGNALED and WIFSTOPPED classify
it (exactly one of the three holds for such a status). -/
inductive WaitStatus where
  /-- WIFEXITED, with WEXITSTATUS `code` -/
  | exited (code : Int)
  /-- WIFSIGNALED, with WTERMSIG `sig` -/
  | signaled (sig : Int)
  /-- WIFSTOPPED, with WSTOPSIG `sig` -/
  | stopped (sig : Int)
deriving DecidableEq, Repr

/-- Append one event to the log. -/
def World.log (w : World) (e : Ev) : World :=
  { w with trace := w.trace ++ [e] }

/-- The text written to standard output by a log. -/
def stdout : List Ev → String
  | [] => ""
  | Ev.printf s :: es => s ++ stdout es
  | _ :: es => stdout es

/-- The contents of `jobs[i]`. -/
def slotAt (jobs : List job_t) (i : Nat) : job_t :=
  jobs.getD i ⟨0, 0, UNDEF, ""⟩

/-- The scan `for (i = 0; i < MAXJOBS; i++) if (p(jobs[i])) return i;`
shared by the job-list routines: the index of the first slot satisfying `p`. -/
def scan (p : job_t → Bool) : List job_t → Option Nat
  | [] => none
  | j :: js => if p j then some 0 else (scan p js).map (· + 1)

/-! ## Helper routines that manipulate the job list -/

/-- Clear the entries in a job struct. -/
def clearjob (_job : job_t) : job_t :=
  { pid := 0, jid := 0, state := UNDEF, cmdline := "" }

/-- Initialize the job list. -/
def initjobs (jobs : List job_t) : List job_t :=
  jobs.map clearjob

/-- Returns largest allocated job ID. -/
def maxjid (jobs : List job_t) : Int :=
  jobs.foldl (fun max j => if j.jid > max then j.jid else max) 0

/-- Add a job to the job list. -/
def addjob (w : World) (pid : Int) (state : Int) (cmdline : String) : Int × World :=
  let w := w.log (Ev.addjob pid state cmdline)
  if pid < 1 then (0, w)
  else
    match scan (fun j => j.pid == 0) w.jobs with
    | some i =>
      let job : job_t := { pid := pid, state := state, jid := w.nextjid, cmdline := cmdline }
      let nextjid := w.nextjid + 1
      let nextjid := if nextjid > (MAXJOBS : Int) then 1 else nextjid
      let w := { w with jobs := w.jobs.set i job, nextjid := nextjid }
      let w := if w.verbose ≠ 0 then
          w.log (Ev.printf ("Added job [" ++ toString job.jid ++ "] " ++ toString job.pid
            ++ " " ++ job.cmdline ++ "\n"))
        else w
      (1, w)
    | none => (0, w.log (Ev.printf "Tried to create too many jobs\n"))

/-- Delete a job whose PID=pid from the job list. -/
def deletejob (w : World) (pid : Int) : Int × World :=
  let w := w.log (Ev.deletejob pid)
  if pid < 1 then (0, w)
  else
    match scan (fun j => j.pid == pid) w.jobs with
    | some i =>
      let jobs := w.jobs.set i (clearjob (slotAt w.jobs i))
      (1, { w with jobs := jobs, nextjid := maxjid jobs + 1 })
    | none => (0, w)

/-- Return PID of current foreground job, 0 if no such job. -/
def fgpid (jobs : List job_t) : Int :=
  match scan (fun j => j.state == FG) jobs with
  | some i => (slotAt jobs i).pid
  | none => 0

/-- Find a job (by PID) on the job list. -/
def getjobpid (jobs : List job_t) (pid : Int) : Option Nat :=
  if pid < 1 then none
  else scan (fun j => j.pid == pid) jobs

/-- Find a job (by JID) on the job list. -/
def getjobjid (jobs : List job_t) (jid : Int) : Option Nat :=
  if jid < 1 then none
  else scan (fun j => j.jid == jid) jobs

/-- Map process ID to job ID. -/
def pid2jid (w : World) (pid : Int) : Int :=
  if pid < 1 then 0
  else
    match scan (fun j => j.pid == pid) w.jobs with
    | some i => (slotAt w.jobs i).jid
    | none => 0

/-- The body of the loop of `listjobs` for the slots from index `i` on. -/
def listjobs_from : Nat → List job_t → List Ev
  | _, [] => []
  | i, j :: js =>
    (if j.pid ≠ 0 then
      [Ev.printf ("[" ++ toString j.jid ++ "] (" ++ toString j.pid ++ ") "),
       (if j.state = BG then Ev.printf "Running "
        else if j.state = FG then Ev.printf "Foreground "
        else if j.state = ST then Ev.printf "Stopped "
        else Ev.printf ("listjobs: Internal error: job[" ++ toString i ++ "].state="
          ++ toString j.state ++ " ")),
       Ev.printf j.cmdline]
    else []) ++ listjobs_from (i + 1) js

/-- Print the job list. -/
def listjobs (w : World) : World :=
  { w with trace := w.trace ++ listjobs_from 0 w.jobs }

/-! ## C library routines used by the shell -/

/-- The single quote character. -/
def QUOTE : Char := Char.ofNat 39

/-- The libc predicate `isdigit`. -/
def isdigit (c : Char) : Bool :=
  decide (48 ≤ c.toNat) && decide (c.toNat ≤ 57)

/-- The libc predicate `isspace` in the C locale: space, `\t`, `\n`, `\v`, `\f`, `\r`. -/
def isspace (c : Char) : Bool :=
  decide (c.toNat = 32) || (decide (9 ≤ c.toNat) && decide (c.toNat ≤ 13))

/-- The value of the longest prefix of decimal digits, continuing from `acc`. -/
def digitsVal : Nat → List Char → Nat
  | acc, [] => acc
  | acc, c :: cs => if isdigit c then digitsVal (acc * 10 + (c.toNat - 48)) cs else acc

/-- The libc function `strtol(s, NULL, 10)` with a 64-bit `long`: leading white
space, an optional sign, decimal digits; the value saturates at LONG_MIN and
LONG_MAX. -/
def strtol (s : List Char) : Int :=
  match s.dropWhile isspace with
  | [] => 0
  | c :: cs =>
    if c = '-' then max (-(digitsVal 0 cs : Int)) (-(2 : Int) ^ 63)
    else if c = '+' then min (digitsVal 0 cs : Int) ((2 : Int) ^ 63 - 1)
    else min (digitsVal 0 (c :: cs) : Int) ((2 : Int) ^ 63 - 1)

/-- The libc function `atoi`, that is `(int) strtol(s, NULL, 10)`: the value is
reduced to a 32-bit two's complement `int`. -/
def atoi (s : List Char) : Int :=
  (strtol s + (2 : Int) ^ 31) % (2 : Int) ^ 32 - (2 : Int) ^ 31

/-- The libc function `strchr(buf, c)` on a NUL-terminated buffer: the characters
before the first `c` and the characters after it, or `none` (NULL). -/
def strchr (c : Char) : List Char → Option (List Char × List Char)
  | [] => none
  | x :: xs =>
    if x = c then some ([], xs)
    else (strchr c xs).map (fun r => (x :: r.1, r.2))

/-! ## parseline -/

/-- The step `while (*buf && (*buf == ' ')) buf++;`. -/
def skipSpaces (buf : List Char) : List Char :=
  buf.dropWhile (fun c => c == ' ')

/-- The choice of delimiter in `parseline`: after an opening single quote the
closing quote, otherwise the next space.  Returns the argument that starts at
`buf` and the buffer after the delimiter. -/
def nextDelim (buf : List Char) : Option (List Char × List Char) :=
  match buf with
  | [] => strchr ' ' []
  | c :: cs => if c = QUOTE then strchr QUOTE cs else strchr ' ' (c :: cs)

/-- The loop `while (delim) { ... }` of `parseline` that builds the argv list.
Every iteration removes at least the delimiter from the buffer, so the loop
runs at most once per character; `fuel` bounds the iterations. -/
def parseloop : Nat → List Char → List (List Char)
  | 0, _ => []
  | fuel + 1, buf =>
    match nextDelim buf with
    | none => []
    | some (arg, rest) => arg :: parseloop fuel (skipSpaces rest)

/-- Parse the command line and build the argv array.  Returns the argv list
(without the terminating NULL) and the value `parseline` returns; `none` is
undefined behaviour: an empty `cmdline` (write to `buf[-1]`) or more than
`MAXARGS - 1` arguments (write beyond `argv`). -/
def parseline (cmdline : String) : Option (List String × Int) :=
  match cmdline.data.reverse with
  | [] => none
  | _ :: revInit =>
    let buf := skipSpaces (revInit.reverse ++ [' '])
    let args := parseloop (buf.length + 1) buf
    if args.length ≥ MAXARGS then none
    else
      match args.reverse with
      | [] => some ([], 1)
      | last :: revFront =>
        if last.head? = some '&' then some ((revFront.reverse).map String.mk, 1)
        else some (args.map String.mk, 0)

/-! ## waitfg, do_bgfg, builtin_cmd -/

/-- One evaluation of the loop condition of `waitfg` on `foregroundJob = &jobs[i]`:
while the slot is in state FG the shell sleeps and stays in the loop. -/
def waitfg_poll (w : World) (i : Nat) : Ctl × World :=
  if (slotAt w.jobs i).state = FG then (Ctl.wait i, w.log (Ev.sleep 1))
  else (Ctl.ret, w)

/-- Block until process pid is no longer the foreground process. -/
def waitfg (w : World) (pid : Int) : Ctl × World :=
  let w := w.log (Ev.waitfg pid)
  match getjobpid w.jobs pid with
  | none => (Ctl.fault, w)
  | some i => waitfg_poll w i

/-- The assignment `jobp->state = state` for `jobp = &jobs[i]`. -/
def setState (w : World) (i : Nat) (state : Int) : World :=
  { w with jobs := w.jobs.set i { slotAt w.jobs i with state := state } }

/-- The acknowledgment `printf("[%d] (%d) %s", jobp->jid, jobp->pid, jobp->cmdline)`. -/
def ackLine (job : job_t) : String :=
  "[" ++ toString job.jid ++ "] (" ++ toString job.pid ++ ") " ++ job.cmdline

/-- The statements of `do_bgfg` once the reference has been looked up the second
time (`jobp`): send SIGCONT to the group, then bg or fg. -/
def do_bgfg_resume (w : World) (argv0 : String) (jobp : Option Nat) (other : String) :
    Ctl × World :=
  if argv0 = "bg" then
    match jobp with
    | none => (Ctl.fault, w)
    | some i =>
      let w := w.log (Ev.kill (-(slotAt w.jobs i).pid) SIGCONT)
      let w := setState w i BG
      (Ctl.ret, w.log (Ev.printf (ackLine (slotAt w.jobs i))))
  else if argv0 = "fg" then
    match jobp with
    | none => (Ctl.fault, w)
    | some i =>
      let w := w.log (Ev.kill (-(slotAt w.jobs i).pid) SIGCONT)
      let w := setState w i FG
      waitfg w (slotAt w.jobs i).pid
  else (Ctl.ret, w.log (Ev.printf other))

/-- Execute the builtin bg and fg commands. -/
def do_bgfg (w : World) (argv : List String) : Ctl × World :=
  let argv0 := argv.headD ""
  match argv.tail.head? with
  | none => (Ctl.ret, w.log (Ev.printf (argv0 ++ " command requires PID or %jobid argument\n")))
  | some argv1 =>
    match argv1.data with
    | [] => (Ctl.ret, w)
    | c :: rest =>
      if isdigit c then
        match getjobpid w.jobs (atoi argv1.data) with
        | some _ =>
          do_bgfg_resume w argv0 (getjobpid w.jobs (atoi argv1.data))
            "This should not have happened but here we are."
        | none => (Ctl.ret, w.log (Ev.printf ("(" ++ argv1 ++ "): No such process \n")))
      else if c = '%' then
        match getjobjid w.jobs (atoi rest) with
        | some _ =>
          do_bgfg_resume w argv0 (getjobjid w.jobs (atoi rest)) "idk how u got here"
        | none => (Ctl.ret, w.log (Ev.printf (argv1 ++ ": no such job\n")))
      else (Ctl.ret, w)

/-- If the user has typed a built-in command then execute it immediately.
The `Int` is the value returned (1 for a builtin, 0 otherwise); it is the value
the call returns once `waitfg` is left when the outcome is `Ctl.wait`, and
is meaningless when the call does not return. -/
def builtin_cmd (w : World) (argv : List String) : Ctl × Int × World :=
  let cmd := argv.headD ""
  if cmd = "quit" then (Ctl.exit 0, 0, w)
  else if cmd = "jobs" then (Ctl.ret, 1, listjobs w)
  else if cmd = "bg" ∨ cmd = "fg" then
    let r := do_bgfg w argv
    (r.1, 1, r.2)
  else (Ctl.ret, 0, w)

/-! ## Signal handlers -/

/-- The line `Job [%d] (%d) terminated by signal %d\n`. -/
def terminatedLine (jid pid sig : Int) : String :=
  "Job [" ++ toString jid ++ "] (" ++ toString pid ++ ") terminated by signal "
    ++ toString sig ++ "\n"

/-- The line `Job [%d] (%d) stopped by signal %d\n`. -/
def stoppedLine (jid pid sig : Int) : String :=
  "Job [" ++ toString jid ++ "] (" ++ toString pid ++ ") stopped by signal "
    ++ toString sig ++ "\n"

/-- The SIGCHLD handler.  `pending` lists, in the order `waitpid` reports them,
the child state changes available to `waitpid(-1, &status, WNOHANG | WUNTRACED)`;
when none is left `waitpid` returns a value that is not positive and the loop
ends.  Returns the world at the handler's return and the state changes it has
not consumed. -/
def sigchld_handler (w : World) : List (Int × WaitStatus) → World × List (Int × WaitStatus)
  | [] => (w, [])
  | (pid_child, status) :: rest =>
    if pid_child > 0 then
      match status with
      | WaitStatus.signaled sig =>
        let w := w.log (Ev.printf (terminatedLine (pid2jid w pid_child) pid_child sig))
        sigchld_handler (deletejob w pid_child).2 rest
      | WaitStatus.exited _ =>
        sigchld_handler (deletejob w pid_child).2 rest
      | WaitStatus.stopped sig =>
        match getjobpid w.jobs pid_child with
        | none => (w, rest)
        | some i =>
          let w := setState w i ST
          let w := w.log (Ev.printf (stoppedLine (pid2jid w pid_child) pid_child sig))
          sigchld_handler w rest
    else (w, rest)

/-- The SIGINT handler: send SIGINT along to the foreground job. -/
def sigint_handler (w : World) : World :=
  let foregroundgroup := fgpid w.jobs
  if foregroundgroup > 0 then w.log (Ev.kill (-foregroundgroup) SIGINT)
  else w

/-- The SIGTSTP handler: suspend the foreground job by sending it a SIGTSTP. -/
def sigtstp_handler (w : World) : World :=
  let foregroundgroup := fgpid w.jobs
  if foregroundgroup > 0 then w.log (Ev.kill (-foregroundgroup) SIGTSTP)
  else w

/-! ## eval -/

/-- The signal set built by `sigemptyset` and the three `sigaddset` calls of `eval`. -/
def evalMask : List Int := [SIGINT, SIGTSTP, SIGCHLD]

/-- Evaluate the command line that the user has just typed in.  `forkret` is
the value `fork` returns in the process that is followed (0 in the child) and
`execfail` tells whether `execve` fails there. -/
def eval (w : World) (cmdline : String) (forkret : Int) (execfail : Bool) : Ctl × World :=
  match parseline cmdline with
  | none => (Ctl.fault, w)
  | some (argv, is_bg) =>
    match argv with
    | [] => (Ctl.ret, w)
    | argv0 :: _ =>
      match builtin_cmd w argv with
      | (Ctl.ret, 0, w) =>
        let w := w.log (Ev.sigprocmask SIG_BLOCK evalMask)
        let pid := forkret
        let w := w.log (Ev.fork pid)
        if pid = 0 then
          let w := w.log (Ev.sigprocmask SIG_UNBLOCK evalMask)
          let w := w.log (Ev.setpgid 0 0)
          let w := w.log (Ev.execve argv0 argv)
          if execfail then (Ctl.exit 0, w.log (Ev.printf (argv0 ++ ": Command not found\n")))
          else (Ctl.exec, w)
        else if is_bg ≠ 0 then
          let w := (addjob w pid BG cmdline).2
          let w := w.log (Ev.sigprocmask SIG_UNBLOCK evalMask)
          (Ctl.ret, w.log (Ev.printf ("[" ++ toString (pid2jid w pid) ++ "] (" ++ toString pid
            ++ ") " ++ cmdline)))
        else
          let w := (addjob w pid FG cmdline).2
          let w := w.log (Ev.sigprocmask SIG_UNBLOCK evalMask)
          waitfg w pid
      | (c, _, w) => (c, w)

/-- The function `eval` with the SIGCHLD handler run where the source lets a
pending SIGCHLD in.  SIGCHLD is blocked from before `fork` until the parent
calls `sigprocmask(SIG_UNBLOCK, ...)`; `atUnblock` lists the child state changes
that have occurred by then.  If there are any, SIGCHLD is pending and the call
of `sigprocmask` lets `sigchld_handler` run before the next statement of `eval`
(the acknowledgment with its `pid2jid` lookup, or `waitfg`).  With
`atUnblock = []` nothing is pending and this is `eval`. -/
def eval_with_sigchld (w : World) (cmdline : String) (forkret : Int) (execfail : Bool)
    (atUnblock : List (Int × WaitStatus)) : Ctl × World :=
  match parseline cmdline with
  | none => (Ctl.fault, w)
  | some (argv, is_bg) =>
    match argv with
    | [] => (Ctl.ret, w)
    | argv0 :: _ =>
      match builtin_cmd w argv with
      | (Ctl.ret, 0, w) =>
        let w := w.log (Ev.sigprocmask SIG_BLOCK evalMask)
        let pid := forkret
        let w := w.log (Ev.fork pid)
        if pid = 0 then
          let w := w.log (Ev.sigprocmask SIG_UNBLOCK evalMask)
          let w := w.log (Ev.setpgid 0 0)
          let w := w.log (Ev.execve argv0 argv)
          if execfail then (Ctl.exit 0, w.log (Ev.printf (argv0 ++ ": Command not found\n")))
          else (Ctl.exec, w)
        else if is_bg ≠ 0 then
          let w := (addjob w pid BG cmdline).2
          let w := w.log (Ev.sigprocmask SIG_UNBLOCK evalMask)
          let w := (sigchld_handler w atUnblock).1
          (Ctl.ret, w.log (Ev.printf ("[" ++ toString (pid2jid w pid) ++ "] (" ++ toString pid
            ++ ") " ++ cmdline)))
        else
          let w := (addjob w pid FG cmdline).2
          let w := w.log (Ev.sigprocmask SIG_UNBLOCK evalMask)
          let w := (sigchld_handler w atUnblock).1
          waitfg w pid
      | (c, _, w) => (c, w)

/-! ## The shell as a transition system -/

/-- The shell process between two atomic steps: its globals and where the main
control path stands. -/
structure Shell where
  w : World
  ctl : Ctl
deriving DecidableEq, Repr

/-- What can happen to the shell process. -/
inductive Event where
  /-- the read loop passes a command line to `eval`; `fork`, if called, returns
  `forkret` to the shell -/
  | command (cmdline : String) (forkret : Int)
  /-- SIGCHLD is delivered while `pending` child state changes are available -/
  | sigchld (pending : List (Int × WaitStatus))
  /-- SIGINT is delivered -/
  | sigint
  /-- SIGTSTP is delivered -/
  | sigtstp
  /-- `sleep(1)` returns in `waitfg` and the loop condition is evaluated again -/
  | poll
deriving DecidableEq, Repr

/-- The values `fork` can return to the shell: -1 on failure, otherwise the
process id of the new child, which is positive and differs from the process id
of every child that has not been reaped, in particular of every job. -/
def forkCanReturn (jobs : List job_t) (pid : Int) : Bool :=
  pid == -1 || (decide (pid > 0) && jobs.all (fun j => j.pid != pid))

/-- The table and allocator at start-up: `jobs` is a zero-initialised global
array of `MAXJOBS` slots, cleared by `initjobs`; `nextjid` is 1. -/
def boot (verbose : Int) : Shell :=
  { w := { jobs := initjobs (List.replicate MAXJOBS ⟨0, 0, 0, ""⟩), nextjid := 1,
           verbose := verbose, trace := [] },
    ctl := Ctl.ret }

/-- One atomic step of the shell process; `none` when the event cannot occur in
this state.  The read loop calls `eval` only after the previous call returned;
handlers run while the process is alive; a process that faulted, exited or was
replaced makes no further step. -/
def step (s : Shell) : Event → Option Shell
  | Event.command cmdline forkret =>
    if s.ctl = Ctl.ret ∧ forkret ≠ 0 ∧ forkCanReturn s.w.jobs forkret = true then
      let r := eval s.w cmdline forkret false
      some { w := r.2, ctl := r.1 }
    else none
  | Event.sigchld pending =>
    match s.ctl with
    | Ctl.ret => some { s with w := (sigchld_handler s.w pending).1 }
    | Ctl.wait _ => some { s with w := (sigchld_handler s.w pending).1 }
    | _ => none
  | Event.sigint =>
    match s.ctl with
    | Ctl.ret => some { s with w := sigint_handler s.w }
    | Ctl.wait _ => some { s with w := sigint_handler s.w }
    | _ => none
  | Event.sigtstp =>
    match s.ctl with
    | Ctl.ret => some { s with w := sigtstp_handler s.w }
    | Ctl.wait _ => some { s with w := sigtstp_handler s.w }
    | _ => none
  | Event.poll =>
    match s.ctl with
    | Ctl.wait i =>
      let r := waitfg_poll s.w i
      some { w := r.2, ctl := r.1 }
    | _ => none

/-- Run a sequence of events. -/
def run (s : Shell) : List Event → Option Shell
  | [] => some s
  | e :: es =>
    match step s e with
    | none => none
    | some t => run t es

/-- The states of the shell process reachable from start-up. -/
def Reachable (s : Shell) : Prop :=
  ∃ (verbose : Int) (es : List Event), run (boot verbose) es = some s

/-! ## Sequences of job-list calls -/

/-- A call of `addjob` or of `deletejob`. -/
inductive JobOp where
  | add (pid : Int) (state : Int) (cmdline : String)
  | del (pid : Int)
deriving DecidableEq, Repr

/-- Perform one call. -/
def JobOp.apply (w : World) : JobOp → World
  | JobOp.add pid state cmdline => (addjob w pid state cmdline).2
  | JobOp.del pid => (deletejob w pid).2

/-- Perform a sequence of calls, first to last. -/
def runOps (w : World) : List JobOp → World
  | [] => w
  | op :: ops => runOps (op.apply w) ops

/-- The calls pass positive pids, and `addjob` is passed a pid that no live job
has at the time of the call. -/
def opsOK (w : World) : List JobOp → Bool
  | [] => true
  | JobOp.add pid state cmdline :: ops =>
    decide (pid > 0) && w.jobs.all (fun j => j.pid != pid)
      && opsOK (addjob w pid state cmdline).2 ops
  | JobOp.del pid :: ops =>
    decide (pid > 0) && opsOK (deletejob w pid).2 ops

/-- No two occupied slots (pid != 0) hold the same jid. -/
def jidsDistinct (jobs : List job_t) : Prop :=
  jobs.Pairwise (fun a b => a.pid ≠ 0 → b.pid ≠ 0 → a.jid ≠ b.jid)

instance (jobs : List job_t) : Decidable (jidsDistinct jobs) := by
  unfold jidsDistinct; infer_instance

/-- Call `addjob` for each `(pid, state, cmdline)` in turn; returns the values
returned, in order, and the final world. -/
def addjobs (w : World) : List (Int × Int × String) → List Int × World
  | [] => ([], w)
  | (pid, state, cmdline) :: rest =>
    let r := addjob w pid state cmdline
    let rs := addjobs r.2 rest
    (r.1 :: rs.1, rs.2)

/-- The state label of the job listing: Running, Foreground or Stopped. -/
def stateLabel (state : Int) : String :=
  if state = BG then "Running "
  else if state = FG then "Foreground "
  else if state = ST then "Stopped "
  else ""

/-- The listing expected for jobs created in this order when the first of them
has job id `k`: one line `[<jid>] (<pid>) <state-label> <command text>` each. -/
def expectedListing : Int → List (Int × Int × String) → String
  | _, [] => ""
  | k, (pid, state, cmdline) :: rest =>
    ("[" ++ toString k ++ "] (" ++ toString pid ++ ") " ++ stateLabel state ++ cmdline)
      ++ expectedListing (k + 1) rest

/-- The slots expected for jobs created in this order when the first of them
has job id `k`. -/
def expectedSlots : Int → List (Int × Int × String) → List job_t
  | _, [] => []
  | k, (pid, state, cmdline) :: rest =>
    { pid := pid, jid := k, state := state, cmdline := cmdline } :: expectedSlots (k + 1) rest

/-! ## Sample runs -/

/-- Sixteen background launches `sleep 9 &`, the children getting the process
ids 101 to 116: they fill the job table. -/
def fillEvents : List Event :=
  (List.range 16).map (fun k => Event.command "sleep 9 &\n" (101 + (k : Int)))

/-- The job table after `fillEvents`: jobs 1 to 16 with process ids 101 to 116,
all running in the background. -/
def fullTable : List job_t :=
  (List.range 16).map (fun k =>
    { pid := 101 + (k : Int), jid := 1 + (k : Int), state := BG, cmdline := "sleep 9 &\n" })

/-- A world with the full table `fullTable` and an empty log. -/
def fullWorld : World :=
  { jobs := fullTable, nextjid := 1, verbose := 0, trace := [] }

/-- Three jobs are created, the second is deleted, and fourteen more are
created; every pid is positive and new. -/
def wrapOps : List JobOp :=
  [JobOp.add 1 BG "a &\n", JobOp.add 2 BG "b &\n", JobOp.add 3 BG "c &\n", JobOp.del 2]
    ++ (List.range 14).map (fun k => JobOp.add (4 + (k : Int)) BG "d &\n")

/-! ## Properties of the job table -/

/-- At most one slot of the table has state FG. -/
def atMostOneFG (jobs : List job_t) : Prop :=
  ∀ i k, i < jobs.length → k < jobs.length →
    (slotAt jobs i).state = FG → (slotAt jobs k).state = FG → i = k

/-- The shape every table of a running shell has: a free slot (pid 0) has jid 0
and is not in state FG, no pid is negative, and no two occupied slots hold the
same pid. -/
def Good (jobs : List job_t) : Prop :=
  (∀ k, (slotAt jobs k).pid = 0 → (slotAt jobs k).jid = 0 ∧ (slotAt jobs k).state ≠ FG) ∧
  (∀ k, 0 ≤ (slotAt jobs k).pid) ∧
  (∀ i k, (slotAt jobs i).pid ≠ 0 → (slotAt jobs i).pid = (slotAt jobs k).pid → i = k)

/-- Only the slot `o` (no slot at all when `o = none`) may be in state FG. -/
def fgOnly (jobs : List job_t) (o : Option Nat) : Prop :=
  ∀ k, (slotAt jobs k).state = FG → o = some k

/-- The slot `waitfg` is polling, if control is inside `waitfg`. -/
def waitSlot : Ctl → Option Nat
  | Ctl.wait i => some i
  | _ => none

/-- The invariant of the shell: the table is `Good`, and a slot is in state FG
only while `waitfg` is polling that very slot. -/
def ShellInv (s : Shell) : Prop :=
  Good s.w.jobs ∧ fgOnly s.w.jobs (waitSlot s.ctl)

/-! ## Notions used to state the properties of the commands -/

/-- The position of a left-to-right reading of a command line: between two
tokens, inside an unquoted token (with the characters read so far), or inside a
token opened by a single quote. -/
inductive TokState
  | between : TokState
  | word : List Char → TokState
  | quoted : List Char → TokState

/-- The tokens of a command line as the specification describes them, read
character by character, independently of `parseline`.  Spaces separate tokens.
A token that opens with a single quote runs to the next single quote, spaces
included, and does not contain the quotes; any other token runs to the next
space or to the end of the line.  An opening quote that is never closed
discards the rest of the line. -/
def specTokensFrom : TokState → List Char → List (List Char)
  | TokState.between, [] => []
  | TokState.word acc, [] => [acc]
  | TokState.quoted _, [] => []
  | TokState.between, c :: cs =>
    if c = ' ' then specTokensFrom TokState.between cs
    else if c = QUOTE then specTokensFrom (TokState.quoted []) cs
    else specTokensFrom (TokState.word [c]) cs
  | TokState.word acc, c :: cs =>
    if c = ' ' then acc :: specTokensFrom TokState.between cs
    else specTokensFrom (TokState.word (acc ++ [c])) cs
  | TokState.quoted acc, c :: cs =>
    if c = QUOTE then acc :: specTokensFrom TokState.between cs
    else specTokensFrom (TokState.quoted (acc ++ [c])) cs

/-- The tokens of the text of a command line (the line without its final
newline), per the specification. -/
def specTokens (text : List Char) : List (List Char) :=
  specTokensFrom TokState.between text

/-- The reference token `tok` of `bg`/`fg` resolves to slot `i`: it starts with
a digit and `getjobpid` finds `i` for its value, or it starts with `%` and
`getjobjid` finds `i` for the value of the rest. -/
def refersTo (jobs : List job_t) (tok : String) (i : Nat) : Prop :=
  (∃ c rest, tok.data = c :: rest ∧ isdigit c = true ∧
      getjobpid jobs (atoi tok.data) = some i) ∨
  (∃ rest, tok.data = '%' :: rest ∧ getjobjid jobs (atoi rest) = some i)

/-- Two slot contents are the same job: same pid, jid and command text (the
state may differ). -/
def sameJob (a b : job_t) : Prop :=
  a.pid = b.pid ∧ a.jid = b.jid ∧ a.cmdline = b.cmdline

/-- A session in which the job id allocator wraps: three background launches
(children 101 to 103), job 2 (child 102) exits and is reaped, then fourteen more
background launches (children 104 to 117). -/
def wrapEvents : List Event :=
  [Event.command "sleep 9 &\n" 101, Event.command "sleep 9 &\n" 102,
   Event.command "sleep 9 &\n" 103, Event.sigchld [(102, WaitStatus.exited 0)]]
    ++ (List.range 14).map (fun k => Event.command "sleep 9 &\n" (104 + (k : Int)))

/-- The job table after `wrapEvents`, as (pid, jid) per slot; every job is in
state BG.  Children 101 and 117 both have job id 1. -/
def wrapTable : List job_t :=
  [(101, 1), (104, 4), (103, 3), (105, 5), (106, 6), (107, 7), (108, 8), (109, 9),
   (110, 10), (111, 11), (112, 12), (113, 13), (114, 14), (115, 15), (116, 16), (117, 1)].map
    (fun (pj : Int × Int) =>
      { pid := pj.1, jid := pj.2, state := BG, cmdline := "sleep 9 &\n" })

/-- A world with the table `wrapTable`, as `wrapEvents` leaves it, and an empty
log. -/
def wrapWorld : World :=
  { jobs := wrapTable, nextjid := 2, verbose := 0, trace := [] }

/-- The world `wrapWorld` after child 117 (slot 15, job id 1) has been stopped by
SIGTSTP. -/
def wrapStopped : World :=
  { jobs := wrapTable.set 15 { pid := 117, jid := 1, state := ST, cmdline := "sleep 9 &\n" },
    nextjid := 2, verbose := 0, trace := [] }

/-- Sixteen jobs are created (pids 1 to 16), job 5 is deleted, a seventeenth
job is created, and job 1 is deleted; every pid is positive and new. -/
def overflowOps : List JobOp :=
  (List.range 16).map (fun k => JobOp.add (1 + (k : Int)) BG "a &\n")
    ++ [JobOp.del 5, JobOp.add 17 BG "b &\n", JobOp.del 1]

/-- The same as a session of the shell: the sixteen background launches of
`fillEvents`, child 105 exits and is reaped, `sleep 9 &` is launched as child
117, and child 101 exits and is reaped. -/
def overflowEvents : List Event :=
  fillEvents ++ [Event.sigchld [(105, WaitStatus.exited 0)],
    Event.command "sleep 9 &\n" 117, Event.sigchld [(101, WaitStatus.exited 0)]]

end Tsh

/-! ## Slots and the scan -/

namespace Tsh

theorem slotAt_cons_zero (j : job_t) (js : List job_t) : slotAt (j :: js) 0 = j := rfl

theorem slotAt_cons_succ (j : job_t) (js : List job_t) (k : Nat) :
    slotAt (j :: js) (k + 1) = slotAt js k := rfl

theorem slotAt_mem (l : List job_t) (i : Nat) (h : i < l.length) : slotAt l i ∈ l := by
  induction l generalizing i with
  | nil => simp at h
  | cons j js ih =>
    cases i with
    | zero => simp [slotAt_cons_zero]
    | succ k =>
      rw [slotAt_cons_succ]
      exact List.mem_cons_of_mem _ (ih k (by simpa using h))

theorem mem_iff_slotAt (l : List job_t) (j : job_t) :
    j ∈ l ↔ ∃ i, i < l.length ∧ slotAt l i = j := by
  constructor
  · intro h
    induction l with
    | nil => simp at h
    | cons a as ih =>
      rcases List.mem_cons.mp h with h | h
      · exact ⟨0, by simp, by rw [slotAt_cons_zero, h]⟩
      · obtain ⟨i, hi, hs⟩ := ih h
        exact ⟨i + 1, by simpa using hi, by rw [slotAt_cons_succ, hs]⟩
  · rintro ⟨i, hi, rfl⟩
    exact slotAt_mem l i hi

theorem slotAt_set_self (l : List job_t) (i : Nat) (a : job_t) (h : i < l.length) :
    slotAt (l.set i a) i = a := by
  induction l generalizing i with
  | nil => simp at h
  | cons j js ih =>
    cases i with
    | zero => rfl
    | succ k =>
      simp only [List.set_cons_succ, slotAt_cons_succ]
      exact ih k (by simpa using h)

theorem slotAt_set_ne (l : List job_t) (i k : Nat) (a : job_t) (h : k ≠ i) :
    slotAt (l.set i a) k = slotAt l k := by
  induction l generalizing i k with
  | nil => rfl
  | cons j js ih =>
    cases i with
    | zero =>
      cases k with
      | zero => exact absurd rfl h
      | succ k => rfl
    | succ i =>
      cases k with
      | zero => rfl
      | succ k =>
        simp only [List.set_cons_succ, slotAt_cons_succ]
        exact ih i k (fun e => h (by rw [e]))

theorem scan_none_iff (p : job_t → Bool) (l : List job_t) :
    scan p l = none ↔ ∀ j ∈ l, p j = false := by
  induction l with
  | nil => simp [scan]
  | cons j js ih =>
    by_cases hp : p j = true
    · simp [scan, hp]
    · simp only [Bool.not_eq_true] at hp
      simp [scan, hp, ih]

theorem scan_some_spec (p : job_t → Bool) (l : List job_t) (i : Nat) (h : scan p l = some i) :
    i < l.length ∧ p (slotAt l i) = true ∧ ∀ k, k < i → p (slotAt l k) = false := by
  induction l generalizing i with
  | nil => simp [scan] at h
  | cons j js ih =>
    by_cases hp : p j = true
    · simp only [scan, hp, if_true, Option.some.injEq] at h
      subst h
      exact ⟨by simp, by simpa [slotAt_cons_zero] using hp, fun k hk => absurd hk (Nat.not_lt_zero k)⟩
    · simp only [scan, hp, Bool.false_eq_true, if_false, Option.map_eq_some'] at h
      obtain ⟨i', hi', rfl⟩ := h
      obtain ⟨h1, h2, h3⟩ := ih i' hi'
      refine ⟨by simpa using h1, by simpa [slotAt_cons_succ] using h2, ?_⟩
      intro k hk
      cases k with
      | zero => simpa [slotAt_cons_zero] using hp
      | succ k => rw [slotAt_cons_succ]; exact h3 k (by omega)

theorem scan_some_unique (p : job_t → Bool) (l : List job_t) (i : Nat)
    (h1 : i < l.length) (h2 : p (slotAt l i) = true) (h3 : ∀ k, k < i → p (slotAt l k) = false) :
    scan p l = some i := by
  cases h : scan p l with
  | none =>
    have := (scan_none_iff p l).mp h _ (slotAt_mem l i h1)
    rw [h2] at this; cases this
  | some i' =>
    obtain ⟨a, b, c⟩ := scan_some_spec p l i' h
    rcases Nat.lt_trichotomy i i' with hlt | heq | hgt
    · have := c i hlt; rw [h2] at this; cases this
    · rw [heq]
    · have := h3 i' hgt; rw [b] at this; cases this

end Tsh

/-! ## addjob and deletejob -/

namespace Tsh

theorem stdout_append (a b : List Ev) : stdout (a ++ b) = stdout a ++ stdout b := by
  induction a with
  | nil => simp [stdout]
  | cons e es ih =>
    cases e <;> simp [stdout, ih, String.append_assoc]

theorem maxjid_fold (l : List job_t) (acc : Int) :
    acc ≤ l.foldl (fun max j => if j.jid > max then j.jid else max) acc ∧
    (∀ j ∈ l, j.jid ≤ l.foldl (fun max j => if j.jid > max then j.jid else max) acc) ∧
    (l.foldl (fun max j => if j.jid > max then j.jid else max) acc = acc ∨
      ∃ j ∈ l, j.jid = l.foldl (fun max j => if j.jid > max then j.jid else max) acc) := by
  induction l generalizing acc with
  | nil => simp
  | cons a as ih =>
    simp only [List.foldl_cons, List.mem_cons, forall_eq_or_imp, exists_eq_or_imp]
    obtain ⟨h1, h2, h3⟩ := ih (if a.jid > acc then a.jid else acc)
    by_cases hc : a.jid > acc
    · simp only [hc, if_true] at h1 h2 h3 ⊢
      refine ⟨by omega, ⟨h1, h2⟩, ?_⟩
      rcases h3 with h3 | h3
      · exact Or.inr (Or.inl h3.symm)
      · exact Or.inr (Or.inr h3)
    · simp only [hc, if_false] at h1 h2 h3 ⊢
      refine ⟨h1, ⟨by omega, h2⟩, ?_⟩
      rcases h3 with h3 | h3
      · exact Or.inl h3
      · exact Or.inr (Or.inr h3)

theorem maxjid_nonneg (l : List job_t) : 0 ≤ maxjid l := (maxjid_fold l 0).1

theorem le_maxjid (l : List job_t) (j : job_t) (h : j ∈ l) : j.jid ≤ maxjid l :=
  (maxjid_fold l 0).2.1 j h

theorem maxjid_attained (l : List job_t) : maxjid l = 0 ∨ ∃ j ∈ l, j.jid = maxjid l :=
  (maxjid_fold l 0).2.2

theorem mem_set_self (l : List job_t) (i : Nat) (a : job_t) (h : i < l.length) :
    a ∈ l.set i a := by
  have := slotAt_mem (l.set i a) i (by simpa using h)
  rwa [slotAt_set_self l i a h] at this

/-- C6: `addjob` returns 0 exactly when `pid <= 0` or no slot is free; otherwise
it returns 1, the lowest-indexed free slot `i` now holds `(pid, state, jid = the
previous nextjid, cmdline)`, every other slot is unchanged, and `nextjid` is the
previous value plus one, or 1 when that exceeds MAXJOBS = 16. -/
theorem addjob_spec (w : World) (pid state : Int) (cmdline : String) :
    ((addjob w pid state cmdline).1 = 0 ↔ (pid ≤ 0 ∨ ∀ j ∈ w.jobs, j.pid ≠ 0)) ∧
    ((addjob w pid state cmdline).1 ≠ 0 →
      (addjob w pid state cmdline).1 = 1 ∧
      ∃ i, i < w.jobs.length ∧ (slotAt w.jobs i).pid = 0 ∧
        (∀ k, k < i → (slotAt w.jobs k).pid ≠ 0) ∧
        slotAt (addjob w pid state cmdline).2.jobs i
          = { pid := pid, jid := w.nextjid, state := state, cmdline := cmdline } ∧
        (∀ k, k ≠ i → slotAt (addjob w pid state cmdline).2.jobs k = slotAt w.jobs k) ∧
        (addjob w pid state cmdline).2.jobs.length = w.jobs.length ∧
        (addjob w pid state cmdline).2.nextjid
          = (if w.nextjid + 1 > 16 then 1 else w.nextjid + 1)) := by
  by_cases hpid : pid < 1
  · have h0 : (addjob w pid state cmdline).1 = 0 := by simp [addjob, hpid]
    exact ⟨⟨fun _ => Or.inl (by omega), fun _ => h0⟩, fun h => absurd h0 h⟩
  · cases hs : scan (fun j => j.pid == 0) (w.log (Ev.addjob pid state cmdline)).jobs with
    | none =>
      have h0 : (addjob w pid state cmdline).1 = 0 := by simp [addjob, hpid, hs]
      refine ⟨⟨fun _ => Or.inr ?_, fun _ => h0⟩, fun h => absurd h0 h⟩
      intro j hj
      have := (scan_none_iff _ _).mp hs j hj
      simpa using this
    | some i =>
      obtain ⟨hi, hp, hlt⟩ := scan_some_spec _ _ _ hs
      have hjobs : (w.log (Ev.addjob pid state cmdline)).jobs = w.jobs := rfl
      rw [hjobs] at hi hp hlt
      have h1 : (addjob w pid state cmdline).1 = 1 := by simp [addjob, hpid, hs]
      have hj : (addjob w pid state cmdline).2.jobs
          = w.jobs.set i { pid := pid, jid := w.nextjid, state := state, cmdline := cmdline } := by
        simp only [addjob, hpid, if_false, hs]
        split <;> rfl
      have hn : (addjob w pid state cmdline).2.nextjid
          = (if w.nextjid + 1 > 16 then 1 else w.nextjid + 1) := by
        simp only [addjob, hpid, if_false, hs]
        split <;> rfl
      refine ⟨⟨fun h => ?_, fun h => ?_⟩, fun _ => ⟨h1, i, hi, by simpa using hp, ?_, ?_, ?_, ?_, hn⟩⟩
      · rw [h1] at h; cases h
      · rcases h with h | h
        · omega
        · exact absurd (by simpa using hp) (h _ (slotAt_mem _ _ hi))
      · intro k hk; simpa using hlt k hk
      · rw [hj]; exact slotAt_set_self _ _ _ hi
      · intro k hk; rw [hj]; exact slotAt_set_ne _ _ _ _ hk
      · rw [hj]; simp

/-- C7: on a table all of whose slots are occupied, `addjob` with `pid >= 1`
returns 0, logs its entry and the capacity diagnostic `Tried to create too many
jobs` and nothing else, and leaves every slot and `nextjid` as they were. -/
theorem addjob_full (w : World) (pid state : Int) (cmdline : String)
    (hfull : ∀ j ∈ w.jobs, j.pid ≠ 0) (hpid : 1 ≤ pid) :
    addjob w pid state cmdline
      = (0, { w with trace := w.trace ++ [Ev.addjob pid state cmdline,
                Ev.printf "Tried to create too many jobs\n"] }) ∧
    (addjob w pid state cmdline).2.jobs = w.jobs ∧
    (addjob w pid state cmdline).2.nextjid = w.nextjid ∧
    stdout (addjob w pid state cmdline).2.trace
      = stdout (w.trace ++ [Ev.printf "Tried to create too many jobs\n"]) := by
  have hs : scan (fun j => j.pid == 0) w.jobs = none := by
    rw [scan_none_iff]
    intro j hj
    simpa using hfull j hj
  have hp : ¬ pid < 1 := by omega
  have h : addjob w pid state cmdline
      = (0, { w with trace := w.trace ++ [Ev.addjob pid state cmdline,
                Ev.printf "Tried to create too many jobs\n"] }) := by
    simp [addjob, hp, hs, World.log]
  refine ⟨h, by rw [h], by rw [h], ?_⟩
  rw [h]
  simp [stdout_append, stdout]

end Tsh

namespace Tsh

theorem deletejob_of_scan_some (w : World) (pid : Int) (i : Nat) (hp : 1 ≤ pid)
    (hs : scan (fun j => j.pid == pid) w.jobs = some i) :
    deletejob w pid
      = (1, { jobs := w.jobs.set i (clearjob (slotAt w.jobs i)),
              nextjid := maxjid (w.jobs.set i (clearjob (slotAt w.jobs i))) + 1,
              verbose := w.verbose,
              trace := w.trace ++ [Ev.deletejob pid] }) := by
  have hp' : ¬ pid < 1 := by omega
  simp [deletejob, hp', World.log, hs]

theorem deletejob_of_scan_none (w : World) (pid : Int)
    (hs : pid < 1 ∨ scan (fun j => j.pid == pid) w.jobs = none) :
    deletejob w pid = (0, w.log (Ev.deletejob pid)) := by
  by_cases hp : pid < 1
  · simp [deletejob, hp]
  · rcases hs with hs | hs
    · exact absurd hs hp
    · simp [deletejob, hp, World.log, hs]

/-- C8: `deletejob` returns 1 exactly when `pid >= 1` and some slot holds that
pid.  Then the first such slot `i` is cleared (pid 0, jid 0, state UNDEF, empty
command text), every other slot is unchanged, and `nextjid` is one more than the
largest jid in the table after the deletion; on a table whose free slots have
jid 0 and whose jobs have a jid of at least 1 this is the largest jid of the
remaining jobs plus one, and 1 when no job remains.  Otherwise `deletejob`
returns 0 and the table and `nextjid` are unchanged. -/
theorem deletejob_spec (w : World) (pid : Int) :
    ((deletejob w pid).1 = 1 ↔ (1 ≤ pid ∧ ∃ j ∈ w.jobs, j.pid = pid)) ∧
    ((deletejob w pid).1 = 1 →
      ∃ i, i < w.jobs.length ∧ (slotAt w.jobs i).pid = pid ∧
        (∀ k, k < i → (slotAt w.jobs k).pid ≠ pid) ∧
        slotAt (deletejob w pid).2.jobs i = { pid := 0, jid := 0, state := UNDEF, cmdline := "" } ∧
        (∀ k, k ≠ i → slotAt (deletejob w pid).2.jobs k = slotAt w.jobs k) ∧
        (deletejob w pid).2.jobs.length = w.jobs.length ∧
        (∀ j ∈ (deletejob w pid).2.jobs, j.jid < (deletejob w pid).2.nextjid) ∧
        (∃ j ∈ (deletejob w pid).2.jobs, (deletejob w pid).2.nextjid = j.jid + 1) ∧
        ((∀ j ∈ w.jobs, (j.pid = 0 → j.jid = 0) ∧ (j.pid ≠ 0 → 1 ≤ j.jid)) →
          ((∃ j ∈ (deletejob w pid).2.jobs, j.pid ≠ 0 ∧ (deletejob w pid).2.nextjid = j.jid + 1) ∨
           ((∀ j ∈ (deletejob w pid).2.jobs, j.pid = 0) ∧ (deletejob w pid).2.nextjid = 1)))) ∧
    ((deletejob w pid).1 ≠ 1 →
      (deletejob w pid).1 = 0 ∧ (deletejob w pid).2.jobs = w.jobs ∧
      (deletejob w pid).2.nextjid = w.nextjid) := by
  by_cases hfound : 1 ≤ pid ∧ ∃ i, scan (fun j => j.pid == pid) w.jobs = some i
  · obtain ⟨hp, i, hs⟩ := hfound
    have hd := deletejob_of_scan_some w pid i hp hs
    obtain ⟨hi, hpi, hlt⟩ := scan_some_spec _ _ _ hs
    have hpi' : (slotAt w.jobs i).pid = pid := by simpa using hpi
    have hmem : (⟨0, 0, UNDEF, ""⟩ : job_t) ∈ w.jobs.set i (clearjob (slotAt w.jobs i)) :=
      mem_set_self _ _ _ hi
    refine ⟨⟨fun _ => ⟨hp, _, slotAt_mem _ _ hi, hpi'⟩, fun _ => by rw [hd]⟩, fun _ => ?_,
      fun h => absurd (by rw [hd]) h⟩
    rw [hd]
    dsimp only
    refine ⟨i, hi, hpi', fun k hk => by simpa using hlt k hk, slotAt_set_self _ _ _ hi,
      fun k hk => slotAt_set_ne _ _ _ _ hk, by simp, ?_, ?_, ?_⟩
    · intro j hj
      have := le_maxjid _ j hj
      show j.jid < maxjid _ + 1
      omega
    · rcases maxjid_attained (w.jobs.set i (clearjob (slotAt w.jobs i))) with h0 | ⟨j, hj, hjm⟩
      · exact ⟨_, hmem, by show maxjid _ + 1 = (0 : Int) + 1; rw [h0]⟩
      · exact ⟨j, hj, by show maxjid _ + 1 = j.jid + 1; rw [hjm]⟩
    · intro hwf
      have hwf' : ∀ j ∈ w.jobs.set i (clearjob (slotAt w.jobs i)),
          (j.pid = 0 → j.jid = 0) ∧ (j.pid ≠ 0 → 1 ≤ j.jid) := by
        intro j hj
        rcases List.mem_or_eq_of_mem_set hj with h | h
        · exact hwf j h
        · subst h; exact ⟨fun _ => rfl, fun h => absurd rfl h⟩
      rcases maxjid_attained (w.jobs.set i (clearjob (slotAt w.jobs i))) with h0 | ⟨j, hj, hjm⟩
      · right
        refine ⟨fun j hj => ?_, by show maxjid _ + 1 = 1; rw [h0]; rfl⟩
        by_contra hne
        have h1 := (hwf' j hj).2 hne
        have h2 := le_maxjid _ j hj
        omega
      · by_cases hjp : j.pid = 0
        · right
          have hj0 : j.jid = 0 := (hwf' j hj).1 hjp
          have h0 : maxjid (w.jobs.set i (clearjob (slotAt w.jobs i))) = 0 := by rw [← hjm, hj0]
          refine ⟨fun j hj => ?_, by show maxjid _ + 1 = 1; rw [h0]; rfl⟩
          by_contra hne
          have h1 := (hwf' j hj).2 hne
          have h2 := le_maxjid _ j hj
          omega
        · left
          exact ⟨j, hj, hjp, by show maxjid _ + 1 = j.jid + 1; rw [hjm]⟩
  · have hnone : pid < 1 ∨ scan (fun j => j.pid == pid) w.jobs = none := by
      by_cases hp : pid < 1
      · exact Or.inl hp
      · right
        cases hs : scan (fun j => j.pid == pid) w.jobs with
        | none => rfl
        | some i => exact absurd ⟨by omega, i, hs⟩ hfound
    have hd := deletejob_of_scan_none w pid hnone
    refine ⟨⟨fun h => ?_, fun h => ?_⟩, fun h => ?_, fun _ => by rw [hd]; exact ⟨rfl, rfl, rfl⟩⟩
    · rw [hd] at h; cases h
    · exfalso
      obtain ⟨hp, j, hj, hjp⟩ := h
      rcases hnone with h1 | h1
      · omega
      · have := (scan_none_iff _ _).mp h1 j hj
        simp [hjp] at this
    · rw [hd] at h; cases h

end Tsh

/-! ## The SIGCHLD handler -/

namespace Tsh

theorem scan_set_congr (p : job_t → Bool) (l : List job_t) (i : Nat) (a : job_t)
    (h : p a = p (slotAt l i)) : scan p (l.set i a) = scan p l := by
  induction l generalizing i with
  | nil => rfl
  | cons j js ih =>
    cases i with
    | zero =>
      rw [slotAt_cons_zero] at h
      simp [scan, h]
    | succ k =>
      rw [slotAt_cons_succ] at h
      simp [scan, ih k h]

theorem getjobpid_some (jobs : List job_t) (pid : Int) (i : Nat)
    (h : getjobpid jobs pid = some i) :
    1 ≤ pid ∧ scan (fun j => j.pid == pid) jobs = some i := by
  unfold getjobpid at h
  by_cases hp : pid < 1
  · simp [hp] at h
  · simp only [hp, if_false] at h
    exact ⟨by omega, h⟩

theorem pid2jid_of_getjobpid (w : World) (pid : Int) (i : Nat)
    (h : getjobpid w.jobs pid = some i) : pid2jid w pid = (slotAt w.jobs i).jid := by
  obtain ⟨hp, hs⟩ := getjobpid_some _ _ _ h
  have hp' : ¬ pid < 1 := by omega
  simp [pid2jid, hp', hs]

/-- C5: in every iteration of the handler's loop, whatever state changes are
still pending behind it (`rest`), a reaped child `pid` that has a job in the
table (`getjobpid` finds slot `i`) is handled as follows, and the loop goes on
with `rest`.  Exited normally: slot `i` is cleared and nothing is printed.
Killed by signal `n`: `Job [<jid>] (<pid>) terminated by signal <n>` is printed
with the jid of slot `i`, then slot `i` is cleared.  Stopped by signal `n`: the
state of slot `i` becomes ST with pid, jid and command text kept, the table is
otherwise unchanged, and `Job [<jid>] (<pid>) stopped by signal <n>` is printed.
With nothing pending the handler returns the world as it is. -/
theorem sigchld_handler_each (w : World) (pid : Int) (i : Nat) (n code : Int)
    (rest : List (Int × WaitStatus)) (h : getjobpid w.jobs pid = some i) :
    (sigchld_handler w ((pid, WaitStatus.exited code) :: rest)
      = sigchld_handler
          { jobs := w.jobs.set i { pid := 0, jid := 0, state := UNDEF, cmdline := "" },
            nextjid := maxjid (w.jobs.set i { pid := 0, jid := 0, state := UNDEF, cmdline := "" }) + 1,
            verbose := w.verbose,
            trace := w.trace ++ [Ev.deletejob pid] } rest ∧
     stdout (w.trace ++ [Ev.deletejob pid]) = stdout w.trace) ∧
    (sigchld_handler w ((pid, WaitStatus.signaled n) :: rest)
      = sigchld_handler
          { jobs := w.jobs.set i { pid := 0, jid := 0, state := UNDEF, cmdline := "" },
            nextjid := maxjid (w.jobs.set i { pid := 0, jid := 0, state := UNDEF, cmdline := "" }) + 1,
            verbose := w.verbose,
            trace := w.trace ++ [Ev.printf ("Job [" ++ toString (slotAt w.jobs i).jid ++ "] ("
                       ++ toString pid ++ ") terminated by signal " ++ toString n ++ "\n"),
                     Ev.deletejob pid] } rest) ∧
    (sigchld_handler w ((pid, WaitStatus.stopped n) :: rest)
      = sigchld_handler
          { jobs := w.jobs.set i { pid := (slotAt w.jobs i).pid, jid := (slotAt w.jobs i).jid,
                                   state := ST, cmdline := (slotAt w.jobs i).cmdline },
            nextjid := w.nextjid,
            verbose := w.verbose,
            trace := w.trace ++ [Ev.printf ("Job [" ++ toString (slotAt w.jobs i).jid ++ "] ("
                       ++ toString pid ++ ") stopped by signal " ++ toString n ++ "\n")] } rest) ∧
    (∀ w0 : World, sigchld_handler w0 [] = (w0, [])) := by
  obtain ⟨hp, hs⟩ := getjobpid_some _ _ _ h
  have hpos : pid > 0 := by omega
  have hi := (scan_some_spec _ _ _ hs).1
  refine ⟨⟨?_, ?_⟩, ?_, ?_, fun _ => rfl⟩
  · rw [show sigchld_handler w ((pid, WaitStatus.exited code) :: rest)
        = sigchld_handler (deletejob w pid).2 rest from by simp [sigchld_handler, hpos]]
    rw [deletejob_of_scan_some w pid i hp hs]
    simp [clearjob]
  · simp [stdout_append, stdout]
  · have hs' : scan (fun j => j.pid == pid)
        (w.log (Ev.printf (terminatedLine (pid2jid w pid) pid n))).jobs = some i := hs
    rw [show sigchld_handler w ((pid, WaitStatus.signaled n) :: rest)
        = sigchld_handler
            (deletejob (w.log (Ev.printf (terminatedLine (pid2jid w pid) pid n))) pid).2 rest
      from by simp [sigchld_handler, hpos]]
    rw [deletejob_of_scan_some _ pid i hp hs']
    simp [World.log, clearjob, pid2jid_of_getjobpid w pid i h, terminatedLine]
  · have hj : pid2jid (setState w i ST) pid = (slotAt w.jobs i).jid := by
      have hs2 : scan (fun j => j.pid == pid) (setState w i ST).jobs = some i := by
        show scan _ (w.jobs.set i _) = some i
        rw [scan_set_congr (fun j => j.pid == pid) w.jobs i
          { slotAt w.jobs i with state := ST } rfl]
        exact hs
      have hp' : ¬ pid < 1 := by omega
      simp only [pid2jid, hp', if_false, hs2]
      show (slotAt (w.jobs.set i _) i).jid = _
      rw [slotAt_set_self _ _ _ hi]
    rw [show sigchld_handler w ((pid, WaitStatus.stopped n) :: rest)
        = sigchld_handler ((setState w i ST).log
            (Ev.printf (stoppedLine (pid2jid (setState w i ST) pid) pid n))) rest
      from by simp [sigchld_handler, hpos, h]]
    rw [hj]
    simp [World.log, stoppedLine, setState]

end Tsh

/-! ## Creating jobs up to capacity and listing them -/

namespace Tsh

theorem addjob_of_scan_some (w : World) (pid state : Int) (cmdline : String) (i : Nat)
    (hp : 1 ≤ pid) (hs : scan (fun j => j.pid == 0) w.jobs = some i) :
    (addjob w pid state cmdline).1 = 1 ∧
    (addjob w pid state cmdline).2.jobs
      = w.jobs.set i { pid := pid, jid := w.nextjid, state := state, cmdline := cmdline } ∧
    (addjob w pid state cmdline).2.nextjid
      = (if w.nextjid + 1 > (MAXJOBS : Int) then 1 else w.nextjid + 1) ∧
    (addjob w pid state cmdline).2.verbose = w.verbose := by
  have hp' : ¬ pid < 1 := by omega
  have hs' : scan (fun j => j.pid == 0) (w.log (Ev.addjob pid state cmdline)).jobs = some i := hs
  refine ⟨by simp [addjob, hp', hs'], ?_, ?_, ?_⟩ <;>
  · simp only [addjob, hp', if_false, hs']
    split <;> rfl

theorem scan_append_cons (p : job_t → Bool) (pre : List job_t) (c : job_t) (rest : List job_t)
    (hpre : ∀ j ∈ pre, p j = false) (hc : p c = true) :
    scan p (pre ++ c :: rest) = some pre.length := by
  induction pre with
  | nil => simp [scan, hc]
  | cons a as ih =>
    have ha : p a = false := hpre a (List.mem_cons_self _ _)
    have := ih (fun j hj => hpre j (List.mem_cons_of_mem _ hj))
    simp [scan, ha, this]

theorem set_append_cons (pre : List job_t) (c a : job_t) (rest : List job_t) :
    (pre ++ c :: rest).set pre.length a = pre ++ a :: rest := by
  induction pre with
  | nil => rfl
  | cons b bs ih => simp [ih]

theorem expectedSlots_length (k : Int) (calls : List (Int × Int × String)) :
    (expectedSlots k calls).length = calls.length := by
  induction calls generalizing k with
  | nil => rfl
  | cons c cs ih => obtain ⟨pid, state, cmdline⟩ := c; simp [expectedSlots, ih]

theorem expectedSlots_jid_ge (k : Int) (calls : List (Int × Int × String)) :
    ∀ j ∈ expectedSlots k calls, k ≤ j.jid := by
  induction calls generalizing k with
  | nil => intro j hj; simp [expectedSlots] at hj
  | cons c cs ih =>
    obtain ⟨pid, state, cmdline⟩ := c
    intro j hj
    simp only [expectedSlots, List.mem_cons] at hj
    rcases hj with rfl | hj
    · exact le_refl _
    · have := ih (k + 1) j hj; omega

theorem expectedSlots_pairwise (k : Int) (calls : List (Int × Int × String)) :
    (expectedSlots k calls).Pairwise (fun a b => a.jid ≠ b.jid) := by
  induction calls generalizing k with
  | nil => simp [expectedSlots]
  | cons c cs ih =>
    obtain ⟨pid, state, cmdline⟩ := c
    simp only [expectedSlots, List.pairwise_cons]
    refine ⟨fun j hj => ?_, ih (k + 1)⟩
    have := expectedSlots_jid_ge (k + 1) cs j hj
    show k ≠ j.jid
    omega

theorem addjobs_from (calls : List (Int × Int × String)) (pre : List job_t) (m : Nat) (w : World)
    (hjobs : w.jobs = pre ++ List.replicate m ⟨0, 0, UNDEF, ""⟩)
    (hpre : ∀ j ∈ pre, j.pid ≠ 0) (hn : w.nextjid = pre.length + 1)
    (hcap : pre.length + m ≤ MAXJOBS) (hlen : calls.length ≤ m)
    (hpid : ∀ c ∈ calls, 0 < c.1) :
    (addjobs w calls).1 = List.replicate calls.length 1 ∧
    (addjobs w calls).2.jobs = pre ++ expectedSlots (pre.length + 1) calls
      ++ List.replicate (m - calls.length) ⟨0, 0, UNDEF, ""⟩ ∧
    (addjobs w calls).2.verbose = w.verbose := by
  induction calls generalizing pre m w with
  | nil => simp [addjobs, expectedSlots, hjobs]
  | cons c cs ih =>
    obtain ⟨pid, state, cmdline⟩ := c
    cases m with
    | zero => simp at hlen
    | succ m' =>
      have hp : 1 ≤ pid := by
        have := hpid (pid, state, cmdline) (List.mem_cons_self _ _)
        simpa using this
      have hs : scan (fun j => j.pid == 0) w.jobs = some pre.length := by
        rw [hjobs, List.replicate_succ]
        exact scan_append_cons _ _ _ _ (fun j hj => by simpa using hpre j hj) rfl
      obtain ⟨h1, h2, h3, h4⟩ := addjob_of_scan_some w pid state cmdline _ hp hs
      rw [hjobs, List.replicate_succ, set_append_cons] at h2
      by_cases hcs : cs = []
      · subst hcs
        simp [addjobs, h1, h2, expectedSlots, hn, h4]
      · have hm' : 0 < m' := by
          cases cs with
          | nil => exact absurd rfl hcs
          | cons d ds => simp at hlen; omega
        have hn' : (addjob w pid state cmdline).2.nextjid
            = ((pre ++ [(⟨pid, w.nextjid, state, cmdline⟩ : job_t)]).length : Nat) + 1 := by
          rw [h3, hn]
          have : ¬ ((pre.length : Int) + 1 + 1 > (MAXJOBS : Int)) := by
            simp only [MAXJOBS] at hcap ⊢; omega
          simp [this]
        obtain ⟨a, b, c⟩ := ih (pre ++ [(⟨pid, w.nextjid, state, cmdline⟩ : job_t)]) m'
          (addjob w pid state cmdline).2 (by rw [h2]; simp)
          (by
            intro j hj
            rcases List.mem_append.mp hj with hj | hj
            · exact hpre j hj
            · simp only [List.mem_singleton] at hj; subst hj; show pid ≠ 0; omega)
          hn' (by simp; omega) (by simpa using hlen)
          (fun c hc => hpid c (List.mem_cons_of_mem _ hc))
        refine ⟨by simp [addjobs, h1, a, List.replicate_succ], ?_, by simp [addjobs, c, h4]⟩
        simp only [addjobs, b, expectedSlots, hn]
        simp
end Tsh

namespace Tsh

theorem listjobs_from_append (i : Nat) (a b : List job_t) :
    listjobs_from i (a ++ b) = listjobs_from i a ++ listjobs_from (i + a.length) b := by
  induction a generalizing i with
  | nil => simp [listjobs_from]
  | cons j js ih =>
    have h := ih (i + 1)
    rw [show i + 1 + js.length = i + (j :: js).length by simp; omega] at h
    show _ ++ listjobs_from (i + 1) (js ++ b) = (_ ++ listjobs_from (i + 1) js) ++ _
    rw [h, List.append_assoc]

theorem listjobs_from_cleared (i m : Nat) :
    listjobs_from i (List.replicate m ⟨0, 0, UNDEF, ""⟩) = [] := by
  induction m generalizing i with
  | zero => rfl
  | succ m ih => simp [List.replicate_succ, listjobs_from, ih]

theorem stdout_listjobs_expected (i : Nat) (k : Int) (calls : List (Int × Int × String))
    (hpid : ∀ c ∈ calls, 0 < c.1)
    (hst : ∀ c ∈ calls, c.2.1 = BG ∨ c.2.1 = FG ∨ c.2.1 = ST) :
    stdout (listjobs_from i (expectedSlots k calls)) = expectedListing k calls := by
  induction calls generalizing i k with
  | nil => rfl
  | cons c cs ih =>
    obtain ⟨pid, state, cmdline⟩ := c
    have hp : pid ≠ 0 := by
      have := hpid (pid, state, cmdline) (List.mem_cons_self _ _)
      simp only at this; omega
    have hs := hst (pid, state, cmdline) (List.mem_cons_self _ _)
    have ih' := ih (i + 1) (k + 1) (fun c hc => hpid c (List.mem_cons_of_mem _ hc))
      (fun c hc => hst c (List.mem_cons_of_mem _ hc))
    have hlabel : (if state = BG then Ev.printf "Running "
        else if state = FG then Ev.printf "Foreground "
        else if state = ST then Ev.printf "Stopped "
        else Ev.printf ("listjobs: Internal error: job[" ++ toString i ++ "].state="
          ++ toString state ++ " ")) = Ev.printf (stateLabel state) := by
      simp only at hs
      rcases hs with hs | hs | hs <;> subst hs <;> simp [stateLabel, BG, FG, ST]
    simp only [expectedSlots, listjobs_from, hp, ne_eq, not_false_eq_true, if_true, hlabel]
    simp only [expectedListing, stdout_append, ih', stdout, String.append_assoc,
      String.append_empty, List.append_eq, List.nil_append]

theorem boot_jobs (verbose : Int) :
    (boot verbose).w.jobs = List.replicate MAXJOBS ⟨0, 0, UNDEF, ""⟩ := by
  simp [boot, initjobs, clearjob]

/-- C9: starting from the initial table, any sequence of at most MAXJOBS = 16
`addjob` calls with positive pids (and states BG, FG or ST) succeeds in every
call; the k-th created job sits in slot k-1 with jid k, so the jids of the
created jobs are pairwise distinct; and `listjobs` then prints exactly one line
`[<jid>] (<pid>) <state-label> <command text>` per created job, in creation
order, and nothing else. -/
theorem addjobs_listjobs (verbose : Int) (calls : List (Int × Int × String))
    (hlen : calls.length ≤ MAXJOBS) (hpid : ∀ c ∈ calls, 0 < c.1)
    (hst : ∀ c ∈ calls, c.2.1 = BG ∨ c.2.1 = FG ∨ c.2.1 = ST) :
    (addjobs (boot verbose).w calls).1 = List.replicate calls.length 1 ∧
    (addjobs (boot verbose).w calls).2.jobs
      = expectedSlots 1 calls
        ++ List.replicate (MAXJOBS - calls.length) ⟨0, 0, UNDEF, ""⟩ ∧
    jidsDistinct (addjobs (boot verbose).w calls).2.jobs ∧
    (listjobs (addjobs (boot verbose).w calls).2).jobs
      = (addjobs (boot verbose).w calls).2.jobs ∧
    stdout (listjobs (addjobs (boot verbose).w calls).2).trace
      = stdout (addjobs (boot verbose).w calls).2.trace ++ expectedListing 1 calls := by
  obtain ⟨h1, h2, _⟩ := addjobs_from calls [] MAXJOBS (boot verbose).w
    (by simp [boot_jobs]) (by simp) (by simp [boot]) (by simp) hlen hpid
  simp only [List.nil_append, List.length_nil, Nat.cast_zero, zero_add] at h2
  refine ⟨h1, h2, ?_, rfl, ?_⟩
  · rw [h2, jidsDistinct, List.pairwise_append]
    refine ⟨(expectedSlots_pairwise 1 calls).imp (fun h _ _ => h), ?_, ?_⟩
    · rw [List.pairwise_replicate]
      exact Or.inr (fun h => absurd rfl h)
    · intro a _ b hb _ hbp
      rw [List.mem_replicate] at hb
      exact absurd (by rw [hb.2]) hbp
  · show stdout (_ ++ listjobs_from 0 _) = _
    rw [stdout_append, h2, listjobs_from_append, listjobs_from_cleared, List.append_nil,
      stdout_listjobs_expected 0 1 calls hpid hst]

/-- Witness for C9: three jobs created from the initial table. -/
theorem addjobs_listjobs_witness :
    (addjobs (boot 0).w [(101, BG, "sleep 9 &\n"), (102, FG, "/bin/ls\n"),
        (103, ST, "vi\n")]).1 = [1, 1, 1] ∧
    stdout (listjobs (addjobs (boot 0).w [(101, BG, "sleep 9 &\n"), (102, FG, "/bin/ls\n"),
        (103, ST, "vi\n")]).2).trace
      = "[1] (101) Running sleep 9 &\n[2] (102) Foreground /bin/ls\n[3] (103) Stopped vi\n" := by
  have h := addjobs_listjobs 0 [(101, BG, "sleep 9 &\n"), (102, FG, "/bin/ls\n"),
    (103, ST, "vi\n")] (by decide) (by decide) (by decide)
  exact ⟨h.1, by rw [h.2.2.2.2]; decide⟩

end Tsh

/-! ## Witnesses and evaluations on the sample runs -/

namespace Tsh

set_option maxRecDepth 100000 in
theorem run_fillEvents :
    run (boot 0) fillEvents
      = some { w := { fullWorld with
                      trace := (List.range 16).flatMap (fun k =>
                        [Ev.sigprocmask SIG_BLOCK evalMask, Ev.fork (101 + (k : Int)),
                         Ev.addjob (101 + (k : Int)) BG "sleep 9 &\n",
                         Ev.sigprocmask SIG_UNBLOCK evalMask,
                         Ev.printf ("[" ++ toString (1 + (k : Int)) ++ "] ("
                           ++ toString (101 + (k : Int)) ++ ") sleep 9 &\n")]) },
               ctl := Ctl.ret } := by
  decide

/-- Witness for C7: the seventeenth job on the full sample table. -/
theorem addjob_full_witness :
    (∀ j ∈ fullWorld.jobs, j.pid ≠ 0) ∧ (1 : Int) ≤ 117 ∧
    addjob fullWorld 117 FG "/bin/ls\n"
      = (0, { fullWorld with trace := [Ev.addjob 117 FG "/bin/ls\n",
                Ev.printf "Tried to create too many jobs\n"] }) :=
  ⟨by decide, by decide, (addjob_full fullWorld 117 FG "/bin/ls\n" (by decide) (by decide)).1⟩

/-- Witness for C5: one invocation with two state changes pending on the full
sample table: job 3 (pid 103) stopped by SIGTSTP, then job 1 (pid 101) killed by
SIGINT.  Both are handled. -/
theorem sigchld_handler_each_witness :
    getjobpid fullWorld.jobs 103 = some 2 ∧
    (sigchld_handler fullWorld
        [(103, WaitStatus.stopped 20), (101, WaitStatus.signaled 2)]).1.trace
      = [Ev.printf "Job [3] (103) stopped by signal 20\n",
         Ev.printf "Job [1] (101) terminated by signal 2\n", Ev.deletejob 101] ∧
    slotAt (sigchld_handler fullWorld
        [(103, WaitStatus.stopped 20), (101, WaitStatus.signaled 2)]).1.jobs 2
      = { pid := 103, jid := 3, state := ST, cmdline := "sleep 9 &\n" } ∧
    slotAt (sigchld_handler fullWorld
        [(103, WaitStatus.stopped 20), (101, WaitStatus.signaled 2)]).1.jobs 0
      = { pid := 0, jid := 0, state := UNDEF, cmdline := "" } ∧
    (sigchld_handler fullWorld
        [(103, WaitStatus.stopped 20), (101, WaitStatus.signaled 2)]).2 = [] := by
  have h := (sigchld_handler_each fullWorld 103 2 20 0 [(101, WaitStatus.signaled 2)]
    (by decide)).2.2.1
  refine ⟨by decide, ?_, ?_, ?_, ?_⟩ <;> (rw [h]; decide)

/-- C2 (evaluation): after `wrapOps` the allocator has wrapped to 1 while job 1
is still alive, so the last job created also gets jid 1: slots 0 and 15 are
both occupied and both hold jid 1. -/
theorem wrapOps_duplicate_jid :
    opsOK (boot 0).w wrapOps = true ∧
    (runOps (boot 0).w wrapOps).jobs.map (fun j => (j.pid, j.jid))
      = [(1, 1), (4, 4), (3, 3), (5, 5), (6, 6), (7, 7), (8, 8), (9, 9), (10, 10), (11, 11),
         (12, 12), (13, 13), (14, 14), (15, 15), (16, 16), (17, 1)] ∧
    ¬ jidsDistinct (runOps (boot 0).w wrapOps).jobs := by
  decide

/-- C4 (evaluation): the table is full (jobs 101 to 116), child 117 was
launched untracked, and SIGCHLD arrives with two state changes pending: 117
stopped, 101 exited.  The handler returns at the stop notification of the
untracked child: the exit of 101 is not consumed and job 101 stays in the
table. -/
theorem sigchld_handler_early_return :
    (run (boot 0) (fillEvents ++ [Event.command "/bin/ls &\n" 117])).map
        (fun s => (s.ctl, s.w.jobs)) = some (Ctl.ret, fullTable) ∧
    (sigchld_handler fullWorld
        [(117, WaitStatus.stopped 20), (101, WaitStatus.exited 0)]).2
      = [(101, WaitStatus.exited 0)] ∧
    (sigchld_handler fullWorld
        [(117, WaitStatus.stopped 20), (101, WaitStatus.exited 0)]).1 = fullWorld ∧
    getjobpid (sigchld_handler fullWorld
        [(117, WaitStatus.stopped 20), (101, WaitStatus.exited 0)]).1.jobs 101 = some 0 ∧
    (run (boot 0) (fillEvents ++ [Event.command "/bin/ls &\n" 117,
        Event.sigchld [(117, WaitStatus.stopped 20), (101, WaitStatus.exited 0)]])).map
        (fun s => s.w.jobs) = some fullTable := by
  refine ⟨by decide, by decide, by decide, by decide, by decide⟩

/-- C10 (evaluation): with the table full, the foreground command `/bin/ls`
(child 117) prints the capacity diagnostic and leaves the table unchanged, but
`waitfg` then dereferences the NULL pointer that `getjobpid` returns for the
untracked pid: `eval` does not return. -/
theorem eval_fg_full_table_fault :
    parseline "/bin/ls\n" = some (["/bin/ls"], 0) ∧
    builtin_cmd fullWorld ["/bin/ls"] = (Ctl.ret, 0, fullWorld) ∧
    eval fullWorld "/bin/ls\n" 117 false
      = (Ctl.fault, { fullWorld with
          trace := [Ev.sigprocmask SIG_BLOCK evalMask, Ev.fork 117,
                    Ev.addjob 117 FG "/bin/ls\n",
                    Ev.printf "Tried to create too many jobs\n",
                    Ev.sigprocmask SIG_UNBLOCK evalMask, Ev.waitfg 117] }) ∧
    (run (boot 0) (fillEvents ++ [Event.command "/bin/ls\n" 117])).map
        (fun s => (s.ctl, s.w.jobs)) = some (Ctl.fault, fullTable) := by
  refine ⟨by decide, by decide, by decide, by decide⟩

end Tsh

/-! ## The launcher's signal-blocking discipline -/

namespace Tsh

theorem builtin_cmd_not_builtin (w : World) (argv : List String)
    (h1 : (builtin_cmd w argv).1 = Ctl.ret) (h2 : (builtin_cmd w argv).2.1 = 0) :
    builtin_cmd w argv = (Ctl.ret, 0, w) := by
  unfold builtin_cmd at h1 h2 ⊢
  dsimp only at h1 h2 ⊢
  split_ifs at h1 h2 ⊢
  all_goals first | rfl | (simp at h2)

theorem addjob_trace (w : World) (pid state : Int) (cmdline : String) :
    ∃ mid, (addjob w pid state cmdline).2.trace = w.trace ++ Ev.addjob pid state cmdline :: mid ∧
      ∀ e ∈ mid, ∃ s, e = Ev.printf s := by
  unfold addjob
  by_cases hp : pid < 1
  · exact ⟨[], by simp [hp, World.log], by simp⟩
  · cases hs : scan (fun j => j.pid == 0) w.jobs with
    | none =>
      exact ⟨[Ev.printf "Tried to create too many jobs\n"], by simp [hp, hs, World.log],
        by simp⟩
    | some i =>
      by_cases hv : w.verbose = 0
      · exact ⟨[], by simp [hp, hs, World.log, hv], by simp⟩
      · exact ⟨[Ev.printf ("Added job [" ++ toString w.nextjid ++ "] " ++ toString pid
            ++ " " ++ cmdline ++ "\n")], by simp [hp, hs, World.log, hv], by simp⟩

theorem addjob_jobs_log (w : World) (e : Ev) (pid state : Int) (cmdline : String) :
    (addjob (w.log e) pid state cmdline).1 = (addjob w pid state cmdline).1 ∧
    (addjob (w.log e) pid state cmdline).2.jobs = (addjob w pid state cmdline).2.jobs ∧
    (addjob (w.log e) pid state cmdline).2.nextjid = (addjob w pid state cmdline).2.nextjid := by
  unfold addjob
  by_cases hp : pid < 1
  · simp [hp, World.log]
  · cases hs : scan (fun j => j.pid == 0) w.jobs with
    | none => simp [hp, hs, World.log]
    | some i =>
      by_cases hv : w.verbose = 0
      · simp [hp, hs, World.log, hv]
      · simp [hp, hs, World.log, hv]

theorem waitfg_trace (w : World) (pid : Int) :
    (waitfg w pid).2.trace = w.trace ++ [Ev.waitfg pid] ∨
    (waitfg w pid).2.trace = w.trace ++ [Ev.waitfg pid, Ev.sleep 1] := by
  unfold waitfg
  cases hg : getjobpid w.jobs pid with
  | none => left; simp [World.log, hg]
  | some i =>
    by_cases hf : (slotAt w.jobs i).state = FG
    · right; simp [waitfg_poll, hf, World.log, hg]
    · left; simp [waitfg_poll, hf, World.log, hg]

theorem waitfg_jobs (w : World) (pid : Int) : (waitfg w pid).2.jobs = w.jobs := by
  unfold waitfg
  cases hg : getjobpid w.jobs pid with
  | none => simp [World.log, hg]
  | some i =>
    by_cases hf : (slotAt w.jobs i).state = FG
    · simp [waitfg_poll, hf, World.log, hg]
    · simp [waitfg_poll, hf, World.log, hg]

/-- C3: on the parent side (`fork` returns a value other than 0) of `eval` for a
command that is not a builtin, the log of `eval` is: SIG_BLOCK of SIGINT,
SIGTSTP, SIGCHLD; `fork`; the entry to `addjob` for the new pid, followed only by
what `addjob` prints; SIG_UNBLOCK of the same set; and then the acknowledgment
(background) or `waitfg` (foreground).  No `sigprocmask` occurs between `fork`
and `addjob`, and the table `eval` leaves is the one `addjob` left. -/
theorem eval_parent_order (w : World) (cmdline : String) (argv : List String) (is_bg : Int)
    (forkret : Int) (execfail : Bool)
    (hparse : parseline cmdline = some (argv, is_bg)) (hargv : argv ≠ [])
    (hret : (builtin_cmd w argv).1 = Ctl.ret) (hnb : (builtin_cmd w argv).2.1 = 0)
    (hparent : forkret ≠ 0) :
    ∃ mid post,
      (eval w cmdline forkret execfail).2.trace
        = w.trace ++ [Ev.sigprocmask SIG_BLOCK [SIGINT, SIGTSTP, SIGCHLD], Ev.fork forkret,
            Ev.addjob forkret (if is_bg ≠ 0 then BG else FG) cmdline]
          ++ mid ++ [Ev.sigprocmask SIG_UNBLOCK [SIGINT, SIGTSTP, SIGCHLD]] ++ post ∧
      (∀ e ∈ mid, ∃ s, e = Ev.printf s) ∧
      (if is_bg ≠ 0 then ∃ s, post = [Ev.printf s]
        else post = [Ev.waitfg forkret] ∨ post = [Ev.waitfg forkret, Ev.sleep 1]) ∧
      (eval w cmdline forkret execfail).2.jobs
        = (addjob w forkret (if is_bg ≠ 0 then BG else FG) cmdline).2.jobs := by
  have hb := builtin_cmd_not_builtin w argv hret hnb
  obtain ⟨argv0, rest, rfl⟩ := List.exists_cons_of_ne_nil hargv
  by_cases hbg : is_bg ≠ 0
  · obtain ⟨mid, hmid, hpr⟩ := addjob_trace
      ((w.log (Ev.sigprocmask SIG_BLOCK evalMask)).log (Ev.fork forkret)) forkret BG cmdline
    have hev : eval w cmdline forkret execfail
        = (Ctl.ret, ((addjob ((w.log (Ev.sigprocmask SIG_BLOCK evalMask)).log (Ev.fork forkret))
            forkret BG cmdline).2.log (Ev.sigprocmask SIG_UNBLOCK evalMask)).log
            (Ev.printf ("[" ++ toString (pid2jid ((addjob ((w.log (Ev.sigprocmask SIG_BLOCK
              evalMask)).log (Ev.fork forkret)) forkret BG cmdline).2.log
              (Ev.sigprocmask SIG_UNBLOCK evalMask)) forkret) ++ "] (" ++ toString forkret
              ++ ") " ++ cmdline))) := by
      simp only [eval, hparse, hb, hparent, if_false, hbg, if_true, ne_eq, not_false_eq_true]
    refine ⟨mid, [Ev.printf ("[" ++ toString (pid2jid ((addjob ((w.log (Ev.sigprocmask SIG_BLOCK
              evalMask)).log (Ev.fork forkret)) forkret BG cmdline).2.log
              (Ev.sigprocmask SIG_UNBLOCK evalMask)) forkret) ++ "] (" ++ toString forkret
              ++ ") " ++ cmdline)], ?_, hpr, ?_, ?_⟩
    · rw [hev]
      show ((addjob _ forkret BG cmdline).2.trace ++ [_]) ++ [_] = _
      rw [hmid]
      simp [World.log, hbg, evalMask]
    · simp only [hbg, if_true, ne_eq, not_false_eq_true]; exact ⟨_, rfl⟩
    · rw [hev]; simp only [hbg, if_true, ne_eq, not_false_eq_true]
      show (addjob _ forkret BG cmdline).2.jobs = _
      rw [(addjob_jobs_log _ _ _ _ _).2.1, (addjob_jobs_log _ _ _ _ _).2.1]
  · obtain ⟨mid, hmid, hpr⟩ := addjob_trace
      ((w.log (Ev.sigprocmask SIG_BLOCK evalMask)).log (Ev.fork forkret)) forkret FG cmdline
    have hev : eval w cmdline forkret execfail
        = waitfg ((addjob ((w.log (Ev.sigprocmask SIG_BLOCK evalMask)).log (Ev.fork forkret))
            forkret FG cmdline).2.log (Ev.sigprocmask SIG_UNBLOCK evalMask)) forkret := by
      simp only [eval, hparse, hb, hparent, if_false, hbg]
    rcases waitfg_trace ((addjob ((w.log (Ev.sigprocmask SIG_BLOCK evalMask)).log
        (Ev.fork forkret)) forkret FG cmdline).2.log (Ev.sigprocmask SIG_UNBLOCK evalMask))
        forkret with ht | ht
    · refine ⟨mid, [Ev.waitfg forkret], ?_, hpr, ?_, ?_⟩
      · rw [hev, ht]
        show ((addjob _ forkret FG cmdline).2.trace ++ [_]) ++ _ = _
        rw [hmid]
        simp [World.log, hbg, evalMask]
      · simp [hbg]
      · rw [hev, waitfg_jobs]; simp only [hbg, if_false]
        show (addjob _ forkret FG cmdline).2.jobs = _
        rw [(addjob_jobs_log _ _ _ _ _).2.1, (addjob_jobs_log _ _ _ _ _).2.1]
    · refine ⟨mid, [Ev.waitfg forkret, Ev.sleep 1], ?_, hpr, ?_, ?_⟩
      · rw [hev, ht]
        show ((addjob _ forkret FG cmdline).2.trace ++ [_]) ++ _ = _
        rw [hmid]
        simp [World.log, hbg, evalMask]
      · simp [hbg]
      · rw [hev, waitfg_jobs]; simp only [hbg, if_false]
        show (addjob _ forkret FG cmdline).2.jobs = _
        rw [(addjob_jobs_log _ _ _ _ _).2.1, (addjob_jobs_log _ _ _ _ _).2.1]

/-- Witness for C3: the background launch `sleep 5 &` (child 100) on the initial
table. -/
theorem eval_parent_order_witness :
    parseline "sleep 5 &\n" = some (["sleep", "5"], 1) ∧
    (eval (boot 0).w "sleep 5 &\n" 100 false).2.trace
      = [Ev.sigprocmask SIG_BLOCK [SIGINT, SIGTSTP, SIGCHLD], Ev.fork 100,
         Ev.addjob 100 BG "sleep 5 &\n",
         Ev.sigprocmask SIG_UNBLOCK [SIGINT, SIGTSTP, SIGCHLD],
         Ev.printf "[1] (100) sleep 5 &\n"] ∧
    ∃ mid post,
      (eval (boot 0).w "sleep 5 &\n" 100 false).2.trace
        = (boot 0).w.trace ++ [Ev.sigprocmask SIG_BLOCK [SIGINT, SIGTSTP, SIGCHLD], Ev.fork 100,
            Ev.addjob 100 (if (1 : Int) ≠ 0 then BG else FG) "sleep 5 &\n"]
          ++ mid ++ [Ev.sigprocmask SIG_UNBLOCK [SIGINT, SIGTSTP, SIGCHLD]] ++ post ∧
      (∀ e ∈ mid, ∃ s, e = Ev.printf s) ∧
      (if (1 : Int) ≠ 0 then ∃ s, post = [Ev.printf s]
        else post = [Ev.waitfg 100] ∨ post = [Ev.waitfg 100, Ev.sleep 1]) ∧
      (eval (boot 0).w "sleep 5 &\n" 100 false).2.jobs
        = (addjob (boot 0).w 100 (if (1 : Int) ≠ 0 then BG else FG) "sleep 5 &\n").2.jobs :=
  ⟨by decide, by decide,
    eval_parent_order (boot 0).w "sleep 5 &\n" ["sleep", "5"] 1 100 false
      (by decide) (by decide) (by decide) (by decide) (by decide)⟩

end Tsh

/-! ## At most one foreground job -/

namespace Tsh

theorem slotAt_of_length_le (l : List job_t) (k : Nat) (h : l.length ≤ k) :
    slotAt l k = ⟨0, 0, UNDEF, ""⟩ := by
  induction l generalizing k with
  | nil => rfl
  | cons j js ih =>
    cases k with
    | zero => simp at h
    | succ k => rw [slotAt_cons_succ]; exact ih k (by simpa using h)

theorem good_set (jobs : List job_t) (i : Nat) (a : job_t) (hg : Good jobs)
    (h1 : a.pid = 0 → a.jid = 0 ∧ a.state ≠ FG) (h2 : 0 ≤ a.pid)
    (h3 : a.pid ≠ 0 → ∀ k, k ≠ i → (slotAt jobs k).pid ≠ a.pid) :
    Good (jobs.set i a) := by
  by_cases hi : i < jobs.length
  · obtain ⟨g1, g2, g3⟩ := hg
    refine ⟨fun k => ?_, fun k => ?_, fun x y => ?_⟩
    · by_cases hk : k = i
      · subst hk; rw [slotAt_set_self _ _ _ hi]; exact h1
      · rw [slotAt_set_ne _ _ _ _ hk]; exact g1 k
    · by_cases hk : k = i
      · subst hk; rw [slotAt_set_self _ _ _ hi]; exact h2
      · rw [slotAt_set_ne _ _ _ _ hk]; exact g2 k
    · by_cases hx : x = i <;> by_cases hy : y = i
      · intro _ _; rw [hx, hy]
      · subst hx
        rw [slotAt_set_self _ _ _ hi, slotAt_set_ne _ _ _ _ hy]
        intro ha he
        exact absurd he.symm (h3 ha y hy)
      · subst hy
        rw [slotAt_set_self _ _ _ hi, slotAt_set_ne _ _ _ _ hx]
        intro hx0 he
        exact absurd he (h3 (by rw [← he]; exact hx0) x hx)
      · rw [slotAt_set_ne _ _ _ _ hx, slotAt_set_ne _ _ _ _ hy]
        exact g3 x y
  · rw [List.set_eq_of_length_le (by omega)]; exact hg

theorem fgOnly_set_other (jobs : List job_t) (i : Nat) (a : job_t) (o : Option Nat)
    (hf : fgOnly jobs o) (ha : a.state ≠ FG) : fgOnly (jobs.set i a) o := by
  intro k hk
  by_cases hi : i < jobs.length
  · by_cases hki : k = i
    · subst hki; rw [slotAt_set_self _ _ _ hi] at hk; exact absurd hk ha
    · rw [slotAt_set_ne _ _ _ _ hki] at hk; exact hf k hk
  · rw [List.set_eq_of_length_le (by omega)] at hk; exact hf k hk

theorem fgOnly_set_fg (jobs : List job_t) (i : Nat) (a : job_t)
    (hf : fgOnly jobs none) : fgOnly (jobs.set i a) (some i) := by
  intro k hk
  by_cases hki : k = i
  · rw [hki]
  · rw [slotAt_set_ne _ _ _ _ hki] at hk; exact absurd (hf k hk) (by simp)

theorem good_setState (jobs : List job_t) (i : Nat) (state : Int) (hg : Good jobs)
    (h : state = FG → (slotAt jobs i).pid ≠ 0) :
    Good (jobs.set i { slotAt jobs i with state := state }) := by
  refine good_set jobs i _ hg (fun h0 => ⟨(hg.1 i h0).1, fun hs => h hs h0⟩) (hg.2.1 i) ?_
  intro hne k hk he
  exact hk (hg.2.2 i k hne he.symm).symm

theorem good_clear (jobs : List job_t) (i : Nat) (hg : Good jobs) :
    Good (jobs.set i (clearjob (slotAt jobs i))) :=
  good_set jobs i _ hg (fun _ => ⟨rfl, (show UNDEF ≠ FG from by decide)⟩) (le_refl _)
    (fun h => absurd rfl h)

theorem deletejob_inv (w : World) (pid : Int) (o : Option Nat)
    (hg : Good w.jobs) (hf : fgOnly w.jobs o) :
    Good (deletejob w pid).2.jobs ∧ fgOnly (deletejob w pid).2.jobs o := by
  by_cases hp : pid < 1
  · rw [deletejob_of_scan_none w pid (Or.inl hp)]; exact ⟨hg, hf⟩
  · cases hs : scan (fun j => j.pid == pid) w.jobs with
    | none => rw [deletejob_of_scan_none w pid (Or.inr hs)]; exact ⟨hg, hf⟩
    | some i =>
      rw [deletejob_of_scan_some w pid i (by omega) hs]
      exact ⟨good_clear _ _ hg, fgOnly_set_other _ _ _ _ hf (show UNDEF ≠ FG from by decide)⟩

theorem sigchld_handler_inv (pending : List (Int × WaitStatus)) (w : World) (o : Option Nat)
    (hg : Good w.jobs) (hf : fgOnly w.jobs o) :
    Good (sigchld_handler w pending).1.jobs ∧ fgOnly (sigchld_handler w pending).1.jobs o := by
  induction pending generalizing w with
  | nil => exact ⟨hg, hf⟩
  | cons p rest ih =>
    obtain ⟨pid, status⟩ := p
    by_cases hpos : pid > 0
    · cases status with
      | exited code =>
        simp only [sigchld_handler, hpos, if_true]
        obtain ⟨a, b⟩ := deletejob_inv w pid o hg hf
        exact ih _ a b
      | signaled sig =>
        simp only [sigchld_handler, hpos, if_true]
        obtain ⟨a, b⟩ := deletejob_inv
          (w.log (Ev.printf (terminatedLine (pid2jid w pid) pid sig))) pid o hg hf
        exact ih _ a b
      | stopped sig =>
        cases hgp : getjobpid w.jobs pid with
        | none => simp only [sigchld_handler, hpos, if_true, hgp]; exact ⟨hg, hf⟩
        | some i =>
          simp only [sigchld_handler, hpos, if_true, hgp]
          exact ih _ (good_setState _ _ _ hg (fun h => absurd h (by decide)))
            (fgOnly_set_other _ _ _ _ hf (show ST ≠ FG from by decide))
    · simp only [sigchld_handler, hpos, if_false]; exact ⟨hg, hf⟩

theorem getjobpid_of_slot (jobs : List job_t) (i : Nat) (hg : Good jobs)
    (hi : i < jobs.length) (hp : (slotAt jobs i).pid ≠ 0) :
    getjobpid jobs (slotAt jobs i).pid = some i := by
  have h1 : ¬ (slotAt jobs i).pid < 1 := by
    have := hg.2.1 i; omega
  simp only [getjobpid, h1, if_false]
  refine scan_some_unique _ _ _ hi (by simp) (fun k hk => ?_)
  by_contra hc
  have he : (slotAt jobs k).pid = (slotAt jobs i).pid := by simpa using hc
  have := hg.2.2 i k hp he.symm
  omega

theorem waitfg_poll_inv (w : World) (i : Nat) (hg : Good w.jobs) (hf : fgOnly w.jobs (some i)) :
    Good (waitfg_poll w i).2.jobs ∧
    fgOnly (waitfg_poll w i).2.jobs (waitSlot (waitfg_poll w i).1) := by
  by_cases hs : (slotAt w.jobs i).state = FG
  · simp only [waitfg_poll, hs, if_true]; exact ⟨hg, hf⟩
  · simp only [waitfg_poll, hs, if_false]
    refine ⟨hg, fun k hk => ?_⟩
    have := hf k hk
    simp only [Option.some.injEq] at this
    subst this
    exact absurd hk hs

theorem waitfg_inv_slot (w : World) (i : Nat) (hg : Good w.jobs) (hf : fgOnly w.jobs (some i))
    (hi : i < w.jobs.length) (hp : (slotAt w.jobs i).pid ≠ 0) :
    Good (waitfg w (slotAt w.jobs i).pid).2.jobs ∧
    fgOnly (waitfg w (slotAt w.jobs i).pid).2.jobs
      (waitSlot (waitfg w (slotAt w.jobs i).pid).1) := by
  have h := getjobpid_of_slot w.jobs i hg hi hp
  have hw : waitfg w (slotAt w.jobs i).pid
      = waitfg_poll (w.log (Ev.waitfg (slotAt w.jobs i).pid)) i := by
    simp only [waitfg]
    rw [show (w.log (Ev.waitfg (slotAt w.jobs i).pid)).jobs = w.jobs from rfl, h]
  rw [hw]
  exact waitfg_poll_inv _ i hg hf

theorem waitfg_inv_none (w : World) (pid : Int) (hg : Good w.jobs) (hf : fgOnly w.jobs none) :
    Good (waitfg w pid).2.jobs ∧ fgOnly (waitfg w pid).2.jobs (waitSlot (waitfg w pid).1) := by
  cases h : getjobpid w.jobs pid with
  | none =>
    have hw : waitfg w pid = (Ctl.fault, w.log (Ev.waitfg pid)) := by
      simp only [waitfg]
      rw [show (w.log (Ev.waitfg pid)).jobs = w.jobs from rfl, h]
    rw [hw]; exact ⟨hg, hf⟩
  | some i =>
    have hs : ¬ (slotAt w.jobs i).state = FG := fun hc => absurd (hf i hc) (by simp)
    have hw : waitfg w pid = (Ctl.ret, w.log (Ev.waitfg pid)) := by
      simp only [waitfg]
      rw [show (w.log (Ev.waitfg pid)).jobs = w.jobs from rfl, h]
      simp only [waitfg_poll]
      rw [show (w.log (Ev.waitfg pid)).jobs = w.jobs from rfl, if_neg hs]
    rw [hw]; exact ⟨hg, hf⟩

end Tsh

namespace Tsh

theorem getjobpid_slot (jobs : List job_t) (pid : Int) (i : Nat)
    (h : getjobpid jobs pid = some i) : i < jobs.length ∧ (slotAt jobs i).pid ≠ 0 := by
  obtain ⟨hp, hs⟩ := getjobpid_some _ _ _ h
  obtain ⟨hi, hpi, _⟩ := scan_some_spec _ _ _ hs
  have : (slotAt jobs i).pid = pid := by simpa using hpi
  exact ⟨hi, by omega⟩

theorem getjobjid_slot (jobs : List job_t) (jid : Int) (i : Nat) (hg : Good jobs)
    (h : getjobjid jobs jid = some i) : i < jobs.length ∧ (slotAt jobs i).pid ≠ 0 := by
  unfold getjobjid at h
  by_cases hj : jid < 1
  · simp [hj] at h
  · simp only [hj, if_false] at h
    obtain ⟨hi, hji, _⟩ := scan_some_spec _ _ _ h
    have hje : (slotAt jobs i).jid = jid := by simpa using hji
    refine ⟨hi, fun h0 => ?_⟩
    have := (hg.1 i h0).1
    omega

theorem do_bgfg_resume_inv (w : World) (argv0 : String) (jobp : Option Nat) (other : String)
    (hg : Good w.jobs) (hf : fgOnly w.jobs none)
    (hj : ∀ i, jobp = some i → i < w.jobs.length ∧ (slotAt w.jobs i).pid ≠ 0) :
    Good (do_bgfg_resume w argv0 jobp other).2.jobs ∧
    fgOnly (do_bgfg_resume w argv0 jobp other).2.jobs
      (waitSlot (do_bgfg_resume w argv0 jobp other).1) := by
  unfold do_bgfg_resume
  by_cases hb : argv0 = "bg"
  · simp only [hb, if_true]
    cases jobp with
    | none => exact ⟨hg, hf⟩
    | some i =>
      exact ⟨good_setState _ _ _ hg (fun h => absurd h (by decide)),
        fgOnly_set_other _ _ _ _ hf (show BG ≠ FG from by decide)⟩
  · by_cases hfg : argv0 = "fg"
    · simp only [hb, if_false, hfg, if_true]
      cases jobp with
      | none => exact ⟨hg, hf⟩
      | some i =>
        obtain ⟨hi, hp⟩ := hj i rfl
        have hg2 : Good (setState (w.log (Ev.kill (-(slotAt w.jobs i).pid) SIGCONT)) i FG).jobs :=
          good_setState _ _ _ hg (fun _ => hp)
        have hf2 : fgOnly (setState (w.log (Ev.kill (-(slotAt w.jobs i).pid) SIGCONT)) i FG).jobs
            (some i) := fgOnly_set_fg _ _ _ hf
        have hi2 : i < (setState (w.log (Ev.kill (-(slotAt w.jobs i).pid) SIGCONT)) i FG).jobs.length := by
          show i < (w.jobs.set i _).length
          simpa using hi
        have hp2 : (slotAt (setState (w.log (Ev.kill (-(slotAt w.jobs i).pid) SIGCONT)) i FG).jobs
            i).pid ≠ 0 := by
          show (slotAt (w.jobs.set i _) i).pid ≠ 0
          rw [slotAt_set_self _ _ _ hi]; exact hp
        exact waitfg_inv_slot _ i hg2 hf2 hi2 hp2
    · simp only [hb, if_false, hfg]; exact ⟨hg, hf⟩

theorem do_bgfg_inv (w : World) (argv : List String)
    (hg : Good w.jobs) (hf : fgOnly w.jobs none) :
    Good (do_bgfg w argv).2.jobs ∧
    fgOnly (do_bgfg w argv).2.jobs (waitSlot (do_bgfg w argv).1) := by
  unfold do_bgfg
  cases h1 : argv.tail.head? with
  | none => exact ⟨hg, hf⟩
  | some argv1 =>
    simp only
    cases hd : argv1.data with
    | nil => exact ⟨hg, hf⟩
    | cons c rest =>
      simp only
      by_cases hdig : isdigit c = true
      · simp only [hdig, if_true]
        cases hgp : getjobpid w.jobs (atoi (c :: rest)) with
        | none => exact ⟨hg, hf⟩
        | some i =>
          exact do_bgfg_resume_inv w _ _ _ hg hf
            (fun k hk => getjobpid_slot _ _ _ (hgp.trans hk))
      · simp only [hdig, Bool.false_eq_true, if_false]
        by_cases hpc : c = '%'
        · simp only [hpc, if_true]
          cases hgj : getjobjid w.jobs (atoi rest) with
          | none => exact ⟨hg, hf⟩
          | some i =>
            exact do_bgfg_resume_inv w _ _ _ hg hf
              (fun k hk => getjobjid_slot _ _ _ hg (hgj.trans hk))
        · simp only [hpc, if_false]; exact ⟨hg, hf⟩

theorem builtin_cmd_inv (w : World) (argv : List String)
    (hg : Good w.jobs) (hf : fgOnly w.jobs none) :
    Good (builtin_cmd w argv).2.2.jobs ∧
    fgOnly (builtin_cmd w argv).2.2.jobs (waitSlot (builtin_cmd w argv).1) := by
  unfold builtin_cmd
  dsimp only
  split_ifs
  · exact ⟨hg, hf⟩
  · exact ⟨hg, hf⟩
  · exact do_bgfg_inv w argv hg hf
  · exact ⟨hg, hf⟩

end Tsh

namespace Tsh

theorem addjob_cases (w : World) (pid state : Int) (cmdline : String) :
    (addjob w pid state cmdline).2.jobs = w.jobs ∨
    ∃ i, i < w.jobs.length ∧ 1 ≤ pid ∧
      (addjob w pid state cmdline).2.jobs
        = w.jobs.set i { pid := pid, jid := w.nextjid, state := state, cmdline := cmdline } := by
  by_cases hp : pid < 1
  · left; simp [addjob, hp, World.log]
  · cases hs : scan (fun j => j.pid == 0) w.jobs with
    | none => left; simp [addjob, hp, hs, World.log]
    | some i =>
      right
      exact ⟨i, (scan_some_spec _ _ _ hs).1, by omega,
        (addjob_of_scan_some w pid state cmdline i (by omega) hs).2.1⟩

theorem fork_fresh (jobs : List job_t) (pid : Int) (h : forkCanReturn jobs pid = true)
    (hp : 1 ≤ pid) : ∀ k, (slotAt jobs k).pid ≠ pid := by
  intro k
  by_cases hk : k < jobs.length
  · have hm := slotAt_mem jobs k hk
    simp only [forkCanReturn, Bool.or_eq_true, beq_iff_eq, Bool.and_eq_true, decide_eq_true_eq,
      List.all_eq_true, bne_iff_ne, ne_eq] at h
    rcases h with h | h
    · omega
    · exact h.2 _ hm
  · rw [slotAt_of_length_le jobs k (by omega)]
    show (0 : Int) ≠ pid
    omega

theorem eval_fork_inv (w : World) (cmdline : String) (pid state : Int)
    (hg : Good w.jobs) (hf : fgOnly w.jobs none)
    (hfresh : forkCanReturn w.jobs pid = true) :
    Good (addjob w pid state cmdline).2.jobs ∧
    (state ≠ FG → fgOnly (addjob w pid state cmdline).2.jobs none) ∧
    (fgOnly (addjob w pid state cmdline).2.jobs none ∨
      ∃ i, i < (addjob w pid state cmdline).2.jobs.length ∧
        (slotAt (addjob w pid state cmdline).2.jobs i).pid = pid ∧ pid ≠ 0 ∧
        fgOnly (addjob w pid state cmdline).2.jobs (some i)) := by
  rcases addjob_cases w pid state cmdline with h | ⟨i, hi, hp, h⟩
  · rw [h]; exact ⟨hg, fun _ => hf, Or.inl hf⟩
  · rw [h]
    refine ⟨good_set _ _ _ hg (fun h0 => absurd h0 (by show pid ≠ 0; omega))
      (by show 0 ≤ pid; omega) (fun _ k _ => fork_fresh _ _ hfresh hp k),
      fun hs => fgOnly_set_other _ _ _ _ hf hs, Or.inr ⟨i, by simpa using hi, ?_, by omega,
        fgOnly_set_fg _ _ _ hf⟩⟩
    rw [slotAt_set_self _ _ _ hi]

theorem eval_inv (w : World) (cmdline : String) (forkret : Int) (execfail : Bool)
    (hg : Good w.jobs) (hf : fgOnly w.jobs none) (hfork : forkret ≠ 0)
    (hfresh : forkCanReturn w.jobs forkret = true) :
    Good (eval w cmdline forkret execfail).2.jobs ∧
    fgOnly (eval w cmdline forkret execfail).2.jobs
      (waitSlot (eval w cmdline forkret execfail).1) := by
  unfold eval
  cases hparse : parseline cmdline with
  | none => exact ⟨hg, hf⟩
  | some r =>
    obtain ⟨argv, is_bg⟩ := r
    cases argv with
    | nil => exact ⟨hg, hf⟩
    | cons argv0 rest =>
      have hb := builtin_cmd_inv w (argv0 :: rest) hg hf
      simp only
      split
      · rename_i w' heq
        have hw : w' = w := by
          have h1 : (builtin_cmd w (argv0 :: rest)).1 = Ctl.ret := by rw [heq]
          have h2 : (builtin_cmd w (argv0 :: rest)).2.1 = 0 := by rw [heq]
          have := builtin_cmd_not_builtin w _ h1 h2
          rw [heq] at this
          simpa using this
        subst hw
        simp only [hfork, if_false]
        by_cases hbg : is_bg ≠ 0
        · simp only [hbg, if_true, ne_eq, not_false_eq_true]
          obtain ⟨a, b, _⟩ := eval_fork_inv
            ((w'.log (Ev.sigprocmask SIG_BLOCK evalMask)).log (Ev.fork forkret)) cmdline forkret
            BG hg hf hfresh
          exact ⟨a, b (by decide)⟩
        · simp only [hbg, if_false]
          obtain ⟨a, _, c⟩ := eval_fork_inv
            ((w'.log (Ev.sigprocmask SIG_BLOCK evalMask)).log (Ev.fork forkret)) cmdline forkret
            FG hg hf hfresh
          rcases c with c | ⟨i, hi, hpid, hne, hfo⟩
          · exact waitfg_inv_none
              ((addjob ((w'.log (Ev.sigprocmask SIG_BLOCK evalMask)).log (Ev.fork forkret))
                forkret FG cmdline).2.log (Ev.sigprocmask SIG_UNBLOCK evalMask)) forkret a c
          · have hpid2 : (slotAt ((addjob ((w'.log (Ev.sigprocmask SIG_BLOCK evalMask)).log
                (Ev.fork forkret)) forkret FG cmdline).2.log
                (Ev.sigprocmask SIG_UNBLOCK evalMask)).jobs i).pid = forkret := hpid
            have := waitfg_inv_slot
              ((addjob ((w'.log (Ev.sigprocmask SIG_BLOCK evalMask)).log (Ev.fork forkret))
                forkret FG cmdline).2.log (Ev.sigprocmask SIG_UNBLOCK evalMask)) i a hfo hi
              (by rw [hpid2]; exact hne)
            rw [hpid2] at this
            exact this
      · rename_i c x w' hne heq
        rw [heq] at hb
        exact hb

theorem step_inv (s t : Shell) (e : Event) (hs : ShellInv s) (h : step s e = some t) :
    ShellInv t := by
  obtain ⟨hg, hf⟩ := hs
  cases e with
  | command cmdline forkret =>
    simp only [step] at h
    split_ifs at h with hc
    obtain ⟨hctl, hfork, hfresh⟩ := hc
    rw [hctl] at hf
    simp only [Option.some.injEq] at h
    subst h
    exact eval_inv s.w cmdline forkret false hg hf hfork hfresh
  | sigchld pending =>
    simp only [step] at h
    split at h
    · rename_i hctl
      simp only [Option.some.injEq] at h; subst h
      exact sigchld_handler_inv pending s.w _ hg hf
    · rename_i i hctl
      simp only [Option.some.injEq] at h; subst h
      exact sigchld_handler_inv pending s.w _ hg hf
    · cases h
  | sigint =>
    simp only [step] at h
    have hj : (sigint_handler s.w).jobs = s.w.jobs := by
      unfold sigint_handler; dsimp only; split_ifs <;> rfl
    split at h
    · simp only [Option.some.injEq] at h; subst h
      exact ⟨by show Good (sigint_handler s.w).jobs; rw [hj]; exact hg,
        by show fgOnly (sigint_handler s.w).jobs _; rw [hj]; exact hf⟩
    · simp only [Option.some.injEq] at h; subst h
      exact ⟨by show Good (sigint_handler s.w).jobs; rw [hj]; exact hg,
        by show fgOnly (sigint_handler s.w).jobs _; rw [hj]; exact hf⟩
    · cases h
  | sigtstp =>
    simp only [step] at h
    have hj : (sigtstp_handler s.w).jobs = s.w.jobs := by
      unfold sigtstp_handler; dsimp only; split_ifs <;> rfl
    split at h
    · simp only [Option.some.injEq] at h; subst h
      exact ⟨by show Good (sigtstp_handler s.w).jobs; rw [hj]; exact hg,
        by show fgOnly (sigtstp_handler s.w).jobs _; rw [hj]; exact hf⟩
    · simp only [Option.some.injEq] at h; subst h
      exact ⟨by show Good (sigtstp_handler s.w).jobs; rw [hj]; exact hg,
        by show fgOnly (sigtstp_handler s.w).jobs _; rw [hj]; exact hf⟩
    · cases h
  | poll =>
    simp only [step] at h
    split at h
    · rename_i i hctl
      simp only [Option.some.injEq] at h; subst h
      rw [hctl] at hf
      exact waitfg_poll_inv s.w i hg hf
    · cases h

theorem run_inv (es : List Event) (s t : Shell) (hs : ShellInv s) (h : run s es = some t) :
    ShellInv t := by
  induction es generalizing s with
  | nil => simp only [run, Option.some.injEq] at h; subst h; exact hs
  | cons e es ih =>
    simp only [run] at h
    cases hst : step s e with
    | none => rw [hst] at h; cases h
    | some u => rw [hst] at h; exact ih u (step_inv s u e hs hst) h

theorem boot_inv (verbose : Int) : ShellInv (boot verbose) := by
  have hslot : ∀ k, slotAt (boot verbose).w.jobs k = ⟨0, 0, UNDEF, ""⟩ := by
    intro k
    by_cases hk : k < (boot verbose).w.jobs.length
    · have := slotAt_mem _ k hk
      rw [boot_jobs, List.mem_replicate] at this
      exact this.2
    · exact slotAt_of_length_le _ k (by omega)
  refine ⟨⟨fun k _ => ?_, fun k => ?_, fun i k hi => ?_⟩, fun k hk => ?_⟩
  · rw [hslot]; exact ⟨rfl, by decide⟩
  · rw [hslot]
  · rw [hslot] at hi; exact absurd rfl hi
  · rw [hslot] at hk; exact absurd hk (by decide)

/-- C1: in every state of the shell reachable from start-up (initial table,
`nextjid` = 1) by calls of `eval` from the read loop (launching a foreground or
background command, or running the builtins, among them `bg` and `fg` through
`do_bgfg`), runs of the signal handlers and polls of `waitfg`, where `eval` is
called only after the previous call returned and `fork` returns -1 or the pid of
a new child, at most one slot of the job table has state FG. -/
theorem reachable_atMostOneFG (s : Shell) (h : Reachable s) : atMostOneFG s.w.jobs := by
  obtain ⟨verbose, es, hrun⟩ := h
  obtain ⟨_, hf⟩ := run_inv es (boot verbose) s (boot_inv verbose) hrun
  intro i k _ _ hi hk
  have h1 := hf i hi
  have h2 := hf k hk
  rw [h1] at h2
  simpa using h2

/-- Witness for C1: after the foreground launch `/bin/ls` (child 101) from
start-up the shell waits on slot 0, the one slot in state FG. -/
theorem reachable_atMostOneFG_witness :
    Reachable { w := (eval (boot 0).w "/bin/ls\n" 101 false).2,
                ctl := (eval (boot 0).w "/bin/ls\n" 101 false).1 } ∧
    (eval (boot 0).w "/bin/ls\n" 101 false).1 = Ctl.wait 0 ∧
    fgpid (eval (boot 0).w "/bin/ls\n" 101 false).2.jobs = 101 ∧
    atMostOneFG (eval (boot 0).w "/bin/ls\n" 101 false).2.jobs :=
  ⟨⟨0, [Event.command "/bin/ls\n" 101], by decide⟩, by decide, by decide,
    reachable_atMostOneFG
      { w := (eval (boot 0).w "/bin/ls\n" 101 false).2,
        ctl := (eval (boot 0).w "/bin/ls\n" 101 false).1 }
      ⟨0, [Event.command "/bin/ls\n" 101], by decide⟩⟩

end Tsh

/-! ## waitfg on a pid without a job -/

namespace Tsh

/-- C11 (evaluation): the foreground child 101 of `/bin/true` exits and is reaped
by the SIGCHLD handler (its job is deleted) before `waitfg(101)` is entered.  No
slot holds pid 101, `getjobpid` returns NULL and `waitfg` dereferences it: the
call faults instead of returning. -/
theorem waitfg_removed_job_fault :
    getjobpid (sigchld_handler (addjob (boot 0).w 101 FG "/bin/true\n").2
        [(101, WaitStatus.exited 0)]).1.jobs 101 = none ∧
    (sigchld_handler (addjob (boot 0).w 101 FG "/bin/true\n").2
        [(101, WaitStatus.exited 0)]).1.jobs = (boot 0).w.jobs ∧
    waitfg (sigchld_handler (addjob (boot 0).w 101 FG "/bin/true\n").2
        [(101, WaitStatus.exited 0)]).1 101
      = (Ctl.fault, { (boot 0).w with
          trace := [Ev.addjob 101 FG "/bin/true\n", Ev.deletejob 101, Ev.waitfg 101] }) := by
  refine ⟨by decide, by decide, by decide⟩

end Tsh

/-! ## The interactive-signal relay -/

namespace Tsh

theorem fgpid_of_first (jobs : List job_t) (i : Nat) (hi : i < jobs.length)
    (hfg : (slotAt jobs i).state = FG) (hfirst : ∀ k, k < i → (slotAt jobs k).state ≠ FG) :
    fgpid jobs = (slotAt jobs i).pid := by
  have hs : scan (fun j => j.state == FG) jobs = some i :=
    scan_some_unique _ _ _ hi (by simpa using hfg) (fun k hk => by simpa using hfirst k hk)
  simp [fgpid, hs]

theorem fgpid_of_none (jobs : List job_t) (h : ∀ j ∈ jobs, j.state ≠ FG) : fgpid jobs = 0 := by
  have hs : scan (fun j => j.state == FG) jobs = none := by
    rw [scan_none_iff]; intro j hj; simpa using h j hj
  simp [fgpid, hs]

/-- C12: `sigint_handler` (resp. `sigtstp_handler`) either does nothing or logs
exactly one `kill(-p, SIGINT)` (resp. SIGTSTP) with `p > 0`, so the target is
strictly negative.  When slot `i` is the (first) slot in state FG and its pid is
positive, the signal goes to minus that pid; when no slot is in state FG nothing
is sent.  The job table and `nextjid` are unchanged. -/
theorem signal_relay (w : World) :
    (∀ i, i < w.jobs.length → (slotAt w.jobs i).state = FG →
      (∀ k, k < i → (slotAt w.jobs k).state ≠ FG) → 0 < (slotAt w.jobs i).pid →
      sigint_handler w = w.log (Ev.kill (-(slotAt w.jobs i).pid) SIGINT) ∧
      sigtstp_handler w = w.log (Ev.kill (-(slotAt w.jobs i).pid) SIGTSTP)) ∧
    ((∀ j ∈ w.jobs, j.state ≠ FG) → sigint_handler w = w ∧ sigtstp_handler w = w) ∧
    (sigint_handler w = w ∨
      ∃ p, 0 < p ∧ -p < 0 ∧ sigint_handler w = w.log (Ev.kill (-p) SIGINT)) ∧
    (sigtstp_handler w = w ∨
      ∃ p, 0 < p ∧ -p < 0 ∧ sigtstp_handler w = w.log (Ev.kill (-p) SIGTSTP)) ∧
    (sigint_handler w).jobs = w.jobs ∧ (sigint_handler w).nextjid = w.nextjid ∧
    (sigtstp_handler w).jobs = w.jobs ∧ (sigtstp_handler w).nextjid = w.nextjid := by
  refine ⟨fun i hi hfg hfirst hpos => ?_, fun h => ?_, ?_, ?_, ?_, ?_, ?_, ?_⟩
  · have h := fgpid_of_first w.jobs i hi hfg hfirst
    simp [sigint_handler, sigtstp_handler, h, hpos]
  · have h0 := fgpid_of_none w.jobs h
    simp [sigint_handler, sigtstp_handler, h0]
  · by_cases hp : fgpid w.jobs > 0
    · exact Or.inr ⟨fgpid w.jobs, hp, by omega, by simp [sigint_handler, hp]⟩
    · exact Or.inl (by simp [sigint_handler, hp])
  · by_cases hp : fgpid w.jobs > 0
    · exact Or.inr ⟨fgpid w.jobs, hp, by omega, by simp [sigtstp_handler, hp]⟩
    · exact Or.inl (by simp [sigtstp_handler, hp])
  all_goals
    first
    | (unfold sigint_handler; dsimp only; split_ifs <;> rfl)
    | (unfold sigtstp_handler; dsimp only; split_ifs <;> rfl)

/-- Witness for C12: while the shell waits for the foreground job 101, SIGINT and
SIGTSTP are sent to the process group -101. -/
theorem signal_relay_witness :
    sigint_handler (eval (boot 0).w "/bin/ls\n" 101 false).2
      = (eval (boot 0).w "/bin/ls\n" 101 false).2.log (Ev.kill (-101) SIGINT) ∧
    sigtstp_handler (eval (boot 0).w "/bin/ls\n" 101 false).2
      = (eval (boot 0).w "/bin/ls\n" 101 false).2.log (Ev.kill (-101) SIGTSTP) ∧
    sigint_handler (boot 0).w = (boot 0).w :=
  ⟨((signal_relay (eval (boot 0).w "/bin/ls\n" 101 false).2).1 0 (by decide) (by decide)
      (by decide) (by decide)).1,
   ((signal_relay (eval (boot 0).w "/bin/ls\n" 101 false).2).1 0 (by decide) (by decide)
      (by decide) (by decide)).2,
   ((signal_relay (boot 0).w).2.1 (by decide)).1⟩

end Tsh

/-! ## bg and fg: references that do not resolve -/

namespace Tsh

theorem isdigit_bounds (c : Char) (h : isdigit c = true) : 48 ≤ c.toNat ∧ c.toNat ≤ 57 := by
  simpa [isdigit] using h

theorem atoi_of_digit (c : Char) (rest : List Char) (hd : isdigit c = true)
    (hv : digitsVal 0 (c :: rest) < 2 ^ 31) :
    atoi (c :: rest) = (digitsVal 0 (c :: rest) : Int) := by
  obtain ⟨h1, h2⟩ := isdigit_bounds c hd
  have hsp : isspace c = false := by
    simp only [isspace, Bool.or_eq_false_iff, decide_eq_false_iff_not, Bool.and_eq_false_iff]
    exact ⟨by omega, Or.inr (by omega)⟩
  have hdrop : List.dropWhile isspace (c :: rest) = c :: rest := by
    simp [List.dropWhile, hsp]
  have hm : c ≠ '-' := by
    intro h; rw [h] at h1; revert h1; decide
  have hp : c ≠ '+' := by
    intro h; rw [h] at h1; revert h1; decide
  have hst : strtol (c :: rest) = (digitsVal 0 (c :: rest) : Int) := by
    simp only [strtol, hdrop, hm, hp, if_false]
    have : ((digitsVal 0 (c :: rest) : Nat) : Int) < 2 ^ 31 := by exact_mod_cast hv
    apply min_eq_left
    norm_num at this ⊢
    omega
  have hv' : ((digitsVal 0 (c :: rest) : Nat) : Int) < 2 ^ 31 := by exact_mod_cast hv
  have h0 : (0 : Int) ≤ (digitsVal 0 (c :: rest) : Nat) := Int.natCast_nonneg _
  unfold atoi
  rw [hst]
  norm_num at hv' ⊢
  omega

theorem getjobpid_none_of_no_job (jobs : List job_t) (v : Int)
    (h : ∀ j ∈ jobs, j.pid ≠ 0 → j.pid ≠ v) : getjobpid jobs v = none := by
  unfold getjobpid
  by_cases hv : v < 1
  · simp [hv]
  · simp only [hv, if_false]
    rw [scan_none_iff]
    intro j hj
    by_contra hc
    have he : j.pid = v := by simpa using hc
    exact h j hj (by omega) he

theorem getjobjid_none_of_no_job (jobs : List job_t) (v : Int)
    (hfree : ∀ j ∈ jobs, j.pid = 0 → j.jid = 0)
    (h : ∀ j ∈ jobs, j.pid ≠ 0 → j.jid ≠ v) : getjobjid jobs v = none := by
  unfold getjobjid
  by_cases hv : v < 1
  · simp [hv]
  · simp only [hv, if_false]
    rw [scan_none_iff]
    intro j hj
    by_contra hc
    have he : j.jid = v := by simpa using hc
    by_cases hp : j.pid = 0
    · have := hfree j hj hp; omega
    · exact h j hj hp he

/-- C13 (counterexample): on the full sample table no job has the pid 4294967397
or the jid 4294967299, both decimal numbers.  `atoi` reduces them to 101 and to
3: `bg 4294967397` sends SIGCONT to the group of job 101 and acknowledges it, and
`fg %4294967299` sends SIGCONT to the group of job 103, puts it into state FG
and waits for it.  No diagnostic is printed. -/
theorem do_bgfg_atoi_truncation :
    (∀ j ∈ fullWorld.jobs, j.pid ≠ 4294967397) ∧
    do_bgfg fullWorld ["bg", "4294967397"]
      = (Ctl.ret, { fullWorld with trace := [Ev.kill (-101) SIGCONT,
          Ev.printf "[1] (101) sleep 9 &\n"] }) ∧
    (∀ j ∈ fullWorld.jobs, j.jid ≠ 4294967299) ∧
    (do_bgfg fullWorld ["fg", "%4294967299"]).1 = Ctl.wait 2 ∧
    (do_bgfg fullWorld ["fg", "%4294967299"]).2.trace
      = [Ev.kill (-103) SIGCONT, Ev.waitfg 103, Ev.sleep 1] ∧
    (slotAt (do_bgfg fullWorld ["fg", "%4294967299"]).2.jobs 2).state = FG := by
  refine ⟨by decide, by decide, by decide, by decide, by decide, by decide⟩

/-- C13 (amended): for `bg`, `fg` (any `argv[0]`) the three error paths of
`do_bgfg` only print.  Reference token missing: `<argv[0]> command requires PID
or %jobid argument`.  Token starting with a digit, when no job has the pid that
`atoi` reads from the token: `(<token>): No such process ` (the line ends with a
blank).  Token `%` followed by digits, when no job has the jid that `atoi` reads
from the digits, on a table whose free slots have jid 0: `<token>: no such job`.
In each case `do_bgfg` returns, the log gains that one `printf` and no `kill` or
`waitfg`, and the table and `nextjid` are unchanged.  What `atoi` reads from
digits is their decimal value whenever that value is below 2^31. -/
theorem do_bgfg_errors (w : World) (argv0 : String) :
    do_bgfg w [argv0]
      = (Ctl.ret, { w with trace := w.trace
          ++ [Ev.printf (argv0 ++ " command requires PID or %jobid argument\n")] }) ∧
    (∀ (tok : String) (more : List String) (c : Char) (rest : List Char),
      tok.data = c :: rest → isdigit c = true →
      (∀ j ∈ w.jobs, j.pid ≠ 0 → j.pid ≠ atoi tok.data) →
      do_bgfg w (argv0 :: tok :: more)
        = (Ctl.ret, { w with trace := w.trace
            ++ [Ev.printf ("(" ++ tok ++ "): No such process \n")] })) ∧
    (∀ (tok : String) (more : List String) (d : Char) (ds : List Char),
      tok.data = '%' :: d :: ds → isdigit d = true →
      (∀ j ∈ w.jobs, j.pid = 0 → j.jid = 0) →
      (∀ j ∈ w.jobs, j.pid ≠ 0 → j.jid ≠ atoi (d :: ds)) →
      do_bgfg w (argv0 :: tok :: more)
        = (Ctl.ret, { w with trace := w.trace ++ [Ev.printf (tok ++ ": no such job\n")] })) ∧
    (∀ (d : Char) (ds : List Char), isdigit d = true → digitsVal 0 (d :: ds) < 2 ^ 31 →
      atoi (d :: ds) = (digitsVal 0 (d :: ds) : Int)) := by
  refine ⟨rfl, ?_, ?_, atoi_of_digit⟩
  · intro tok more c rest hdata hd hno
    have hg : getjobpid w.jobs (atoi (c :: rest)) = none := by
      rw [← hdata]; exact getjobpid_none_of_no_job _ _ hno
    simp [do_bgfg, hdata, hd, hg, World.log]
  · intro tok more d ds hdata hd hfree hno
    have hg : getjobjid w.jobs (atoi (d :: ds)) = none :=
      getjobjid_none_of_no_job _ _ hfree hno
    have hnd : isdigit '%' = false := by decide
    simp [do_bgfg, hdata, hnd, hg, World.log]

/-- Witness for C13 (amended): `fg 1234` and `bg %20` on the full sample table,
which holds the pids 101 to 116 and the jids 1 to 16; `atoi` reads 1234 and 20. -/
theorem do_bgfg_errors_witness :
    (∀ j ∈ fullWorld.jobs, j.pid ≠ 0 → j.pid ≠ 1234) ∧
    (∀ j ∈ fullWorld.jobs, j.pid ≠ 0 → j.jid ≠ 20) ∧
    atoi "1234".data = 1234 ∧ atoi "20".data = 20 ∧
    do_bgfg fullWorld ["fg", "1234"]
      = (Ctl.ret, { fullWorld with trace := [Ev.printf "(1234): No such process \n"] }) ∧
    do_bgfg fullWorld ["bg", "%20"]
      = (Ctl.ret, { fullWorld with trace := [Ev.printf "%20: no such job\n"] }) :=
  ⟨by decide, by decide, by decide, by decide,
   (do_bgfg_errors fullWorld "fg").2.1 "1234" [] '1' ['2', '3', '4'] rfl (by decide) (by decide),
   (do_bgfg_errors fullWorld "bg").2.2.1 "%20" [] '2' ['0'] rfl (by decide) (by decide)
     (by decide)⟩

end Tsh

/-! ## bg and fg: references that resolve -/

namespace Tsh

theorem set_slotAt_self (l : List job_t) (i : Nat) : l.set i (slotAt l i) = l := by
  induction l generalizing i with
  | nil => rfl
  | cons j js ih =>
    cases i with
    | zero => rfl
    | succ k => simp only [List.set_cons_succ, slotAt_cons_succ, ih k]

theorem getjobpid_set_state (jobs : List job_t) (i : Nat) (state v : Int) :
    getjobpid (jobs.set i { slotAt jobs i with state := state }) v = getjobpid jobs v := by
  unfold getjobpid
  split
  · rfl
  · exact scan_set_congr (fun j => j.pid == v) jobs i { slotAt jobs i with state := state } rfl

theorem getjobjid_set_state (jobs : List job_t) (i : Nat) (state v : Int) :
    getjobjid (jobs.set i { slotAt jobs i with state := state }) v = getjobjid jobs v := by
  unfold getjobjid
  split
  · rfl
  · exact scan_set_congr (fun j => j.jid == v) jobs i { slotAt jobs i with state := state } rfl

theorem getjobjid_lt (jobs : List job_t) (v : Int) (i : Nat) (h : getjobjid jobs v = some i) :
    i < jobs.length := by
  unfold getjobjid at h
  split at h
  · cases h
  · exact (scan_some_spec _ _ _ h).1

theorem refersTo_lt (jobs : List job_t) (tok : String) (i : Nat) (h : refersTo jobs tok i) :
    i < jobs.length := by
  rcases h with ⟨c, rest, _, _, hg⟩ | ⟨rest, _, hg⟩
  · exact (getjobpid_slot _ _ _ hg).1
  · exact getjobjid_lt _ _ _ hg

theorem refersTo_set_state (jobs : List job_t) (tok : String) (i k : Nat) (state : Int)
    (h : refersTo jobs tok i) :
    refersTo (jobs.set k { slotAt jobs k with state := state }) tok i := by
  rcases h with ⟨c, rest, hd, hc, hg⟩ | ⟨rest, hd, hg⟩
  · exact Or.inl ⟨c, rest, hd, hc, by rw [getjobpid_set_state]; exact hg⟩
  · exact Or.inr ⟨rest, hd, by rw [getjobjid_set_state]; exact hg⟩

theorem do_bgfg_resolved (w : World) (argv0 tok : String) (more : List String) (i : Nat)
    (h : refersTo w.jobs tok i) :
    ∃ other, do_bgfg w (argv0 :: tok :: more) = do_bgfg_resume w argv0 (some i) other := by
  rcases h with ⟨c, rest, hd, hc, hg⟩ | ⟨rest, hd, hg⟩
  · rw [hd] at hg
    exact ⟨"This should not have happened but here we are.", by simp [do_bgfg, hd, hc, hg]⟩
  · have hnd : isdigit '%' = false := by decide
    exact ⟨"idk how u got here", by simp [do_bgfg, hd, hnd, hg]⟩

theorem do_bgfg_bg_resolved (w : World) (tok : String) (more : List String) (i : Nat)
    (h : refersTo w.jobs tok i) :
    do_bgfg w ("bg" :: tok :: more)
      = (Ctl.ret,
          { jobs := w.jobs.set i { slotAt w.jobs i with state := BG },
            nextjid := w.nextjid, verbose := w.verbose,
            trace := w.trace ++ [Ev.kill (-(slotAt w.jobs i).pid) SIGCONT,
              Ev.printf ("[" ++ toString (slotAt w.jobs i).jid ++ "] ("
                ++ toString (slotAt w.jobs i).pid ++ ") " ++ (slotAt w.jobs i).cmdline)] }) := by
  obtain ⟨other, ho⟩ := do_bgfg_resolved w "bg" tok more i h
  have hi := refersTo_lt _ _ _ h
  rw [ho]
  simp only [do_bgfg_resume, if_true, setState, World.log, ackLine]
  rw [slotAt_set_self _ _ _ hi]
  simp

theorem do_bgfg_fg_resolved (w : World) (tok : String) (more : List String) (i : Nat)
    (h : refersTo w.jobs tok i) :
    do_bgfg w ("fg" :: tok :: more)
      = waitfg
          { jobs := w.jobs.set i { slotAt w.jobs i with state := FG },
            nextjid := w.nextjid, verbose := w.verbose,
            trace := w.trace ++ [Ev.kill (-(slotAt w.jobs i).pid) SIGCONT] }
          (slotAt w.jobs i).pid := by
  obtain ⟨other, ho⟩ := do_bgfg_resolved w "fg" tok more i h
  have hi := refersTo_lt _ _ _ h
  have hne : ¬ ("fg" = "bg") := by decide
  rw [ho]
  simp only [do_bgfg_resume, hne, if_false, if_true, setState, World.log]
  rw [slotAt_set_self _ _ _ hi]

/-- C15: when the reference (a pid, or `%` and a jid) resolves to slot `i` and
that job is already in state BG, `bg` leaves the job table and `nextjid`
unchanged, sends SIGCONT to the group and prints the acknowledgment
`[<jid>] (<pid>) <command text>`.  Hence for every reference that resolves,
whatever the state of the job, a second `bg` leaves the table of the first `bg`
unchanged and logs the same `kill` and the same acknowledgment as the first. -/
theorem do_bgfg_bg_idempotent (w : World) (tok : String) (more : List String) (i : Nat)
    (h : refersTo w.jobs tok i) :
    ((slotAt w.jobs i).state = BG →
      do_bgfg w ("bg" :: tok :: more)
        = (Ctl.ret, { w with trace := w.trace ++ [Ev.kill (-(slotAt w.jobs i).pid) SIGCONT,
            Ev.printf ("[" ++ toString (slotAt w.jobs i).jid ++ "] ("
              ++ toString (slotAt w.jobs i).pid ++ ") " ++ (slotAt w.jobs i).cmdline)] })) ∧
    (do_bgfg w ("bg" :: tok :: more)).1 = Ctl.ret ∧
    (do_bgfg w ("bg" :: tok :: more)).2.trace
      = w.trace ++ [Ev.kill (-(slotAt w.jobs i).pid) SIGCONT,
          Ev.printf ("[" ++ toString (slotAt w.jobs i).jid ++ "] ("
            ++ toString (slotAt w.jobs i).pid ++ ") " ++ (slotAt w.jobs i).cmdline)] ∧
    (do_bgfg (do_bgfg w ("bg" :: tok :: more)).2 ("bg" :: tok :: more)).1 = Ctl.ret ∧
    (do_bgfg (do_bgfg w ("bg" :: tok :: more)).2 ("bg" :: tok :: more)).2.jobs
      = (do_bgfg w ("bg" :: tok :: more)).2.jobs ∧
    (do_bgfg (do_bgfg w ("bg" :: tok :: more)).2 ("bg" :: tok :: more)).2.nextjid
      = (do_bgfg w ("bg" :: tok :: more)).2.nextjid ∧
    (do_bgfg (do_bgfg w ("bg" :: tok :: more)).2 ("bg" :: tok :: more)).2.trace
      = (do_bgfg w ("bg" :: tok :: more)).2.trace
        ++ [Ev.kill (-(slotAt w.jobs i).pid) SIGCONT,
          Ev.printf ("[" ++ toString (slotAt w.jobs i).jid ++ "] ("
            ++ toString (slotAt w.jobs i).pid ++ ") " ++ (slotAt w.jobs i).cmdline)] := by
  have hi := refersTo_lt _ _ _ h
  have h1 := do_bgfg_bg_resolved w tok more i h
  have h2 := do_bgfg_bg_resolved (do_bgfg w ("bg" :: tok :: more)).2 tok more i
    (by rw [h1]; exact refersTo_set_state _ _ _ _ _ h)
  refine ⟨fun hbg => ?_, by rw [h1], by rw [h1], by rw [h2], ?_, by rw [h2], ?_⟩
  · rw [h1]
    have : ({ slotAt w.jobs i with state := BG } : job_t) = slotAt w.jobs i := by
      rw [← hbg]
    rw [this, set_slotAt_self]
  · rw [h2, h1]
    simp only [slotAt_set_self _ _ _ hi]
    rw [List.set_set]
  · rw [h2, h1]
    simp only [slotAt_set_self _ _ _ hi]

/-- Witness for C15: `bg 103` and `bg %3` on the full sample table, whose job 3
(pid 103, slot 2) is running in the background. -/
theorem do_bgfg_bg_idempotent_witness :
    refersTo fullWorld.jobs "103" 2 ∧ refersTo fullWorld.jobs "%3" 2 ∧
    do_bgfg fullWorld ["bg", "103"]
      = (Ctl.ret, { fullWorld with trace := [Ev.kill (-103) SIGCONT,
          Ev.printf "[3] (103) sleep 9 &\n"] }) ∧
    (do_bgfg (do_bgfg fullWorld ["bg", "%3"]).2 ["bg", "%3"]).2.jobs
      = (do_bgfg fullWorld ["bg", "%3"]).2.jobs := by
  have h1 : refersTo fullWorld.jobs "103" 2 :=
    Or.inl ⟨'1', ['0', '3'], rfl, by decide, by decide⟩
  have h2 : refersTo fullWorld.jobs "%3" 2 := Or.inr ⟨['3'], rfl, by decide⟩
  refine ⟨h1, h2, ?_, (do_bgfg_bg_idempotent fullWorld "%3" [] 2 h2).2.2.2.2.1⟩
  rw [(do_bgfg_bg_idempotent fullWorld "103" [] 2 h1).1 (by decide)]
  decide

end Tsh

/-! ## bg and fg by job id after the allocator has wrapped -/

namespace Tsh

set_option maxRecDepth 100000 in
theorem run_wrapEvents :
    (run (boot 0) wrapEvents).map (fun s => (s.ctl, s.w.jobs, s.w.nextjid))
      = some (Ctl.ret, wrapTable, 2) ∧
    (run (boot 0) wrapEvents).map (fun s => s.w.trace.getLast?)
      = some (some (Ev.printf "[1] (117) sleep 9 &\n")) ∧
    (run (boot 0) (wrapEvents ++ [Event.sigchld [(117, WaitStatus.stopped 20)]])).map
        (fun s => (s.ctl, s.w.jobs, s.w.nextjid))
      = some (Ctl.ret, wrapStopped.jobs, 2) := by
  refine ⟨by decide, by decide, by decide⟩

/-- C14 (evaluation): in the table of `wrapStopped` no job is in state FG and
job 117 (slot 15) has jid 1 and is stopped; job 101 (slot 0) has jid 1 too.
`bg %1` sends SIGCONT to the group of 101 and acknowledges 101; job 117 gets no
signal and stays in state ST. -/
theorem bg_jid_after_wrap :
    slotAt wrapStopped.jobs 15
      = { pid := 117, jid := 1, state := ST, cmdline := "sleep 9 &\n" } ∧
    (∀ j ∈ wrapStopped.jobs, j.state ≠ FG) ∧
    do_bgfg wrapStopped ["bg", "%1"]
      = (Ctl.ret, { wrapStopped with trace := [Ev.kill (-101) SIGCONT,
          Ev.printf "[1] (101) sleep 9 &\n"] }) ∧
    (slotAt (do_bgfg wrapStopped ["bg", "%1"]).2.jobs 15).state = ST := by
  refine ⟨by decide, by decide, by decide, by decide⟩

/-- C16 (evaluation): in the table of `wrapWorld` the background job launched
last, child 117 (slot 15), received jid 1 and no job is in state FG; job 101
(slot 0) has jid 1 too.  `fg %1` sends SIGCONT to the group of 101, puts 101
into state FG and waits for 101; job 117 stays in state BG. -/
theorem fg_jid_after_wrap :
    slotAt wrapWorld.jobs 15
      = { pid := 117, jid := 1, state := BG, cmdline := "sleep 9 &\n" } ∧
    (∀ j ∈ wrapWorld.jobs, j.state ≠ FG) ∧
    do_bgfg wrapWorld ["fg", "%1"]
      = (Ctl.wait 0,
          { wrapWorld with
            jobs := wrapTable.set 0 { pid := 101, jid := 1, state := FG,
                                      cmdline := "sleep 9 &\n" },
            trace := [Ev.kill (-101) SIGCONT, Ev.waitfg 101, Ev.sleep 1] }) ∧
    (slotAt (do_bgfg wrapWorld ["fg", "%1"]).2.jobs 15).state = BG := by
  refine ⟨by decide, by decide, by decide, by decide⟩

end Tsh

/-! ## The child branch of eval -/

namespace Tsh

/-- C17 (counterexample): in the child (`fork` returned 0) of the command
`/bin/nosuch`, whose `execve` fails, the process ends by `exit(0)`: there is no
non-zero exit status. -/
theorem eval_child_exit_status_zero :
    ¬ ∃ code : Int, code ≠ 0 ∧ (eval (boot 0).w "/bin/nosuch\n" 0 true).1 = Ctl.exit code := by
  rintro ⟨code, hne, h⟩
  have h0 : (eval (boot 0).w "/bin/nosuch\n" 0 true).1 = Ctl.exit 0 := by decide
  rw [h0] at h
  injection h with h
  exact hne h.symm

/-- C17 (amended): in the child branch of `eval` (`fork` returned 0) for a command
that is not a builtin, when `execve` fails the child unblocks the signals, sets
its process group, prints `<argv[0]>: Command not found` and ends by `exit(0)`,
that is with exit status 0.  Its log holds no entry to `addjob` or `waitfg` and
its copy of the job table and `nextjid` are unchanged. -/
theorem eval_child_execfail (w : World) (cmdline : String) (argv0 : String)
    (rest : List String) (is_bg : Int)
    (hparse : parseline cmdline = some (argv0 :: rest, is_bg))
    (hret : (builtin_cmd w (argv0 :: rest)).1 = Ctl.ret)
    (hnb : (builtin_cmd w (argv0 :: rest)).2.1 = 0) :
    eval w cmdline 0 true
      = (Ctl.exit 0,
          { w with trace := w.trace ++ [Ev.sigprocmask SIG_BLOCK [SIGINT, SIGTSTP, SIGCHLD],
              Ev.fork 0, Ev.sigprocmask SIG_UNBLOCK [SIGINT, SIGTSTP, SIGCHLD],
              Ev.setpgid 0 0, Ev.execve argv0 (argv0 :: rest),
              Ev.printf (argv0 ++ ": Command not found\n")] }) := by
  have hb := builtin_cmd_not_builtin w (argv0 :: rest) hret hnb
  simp [eval, hparse, hb, World.log, evalMask]

/-- Witness for C17 (amended): the child of `/bin/nosuch arg` on the initial
table. -/
theorem eval_child_execfail_witness :
    parseline "/bin/nosuch arg\n" = some (["/bin/nosuch", "arg"], 0) ∧
    eval (boot 0).w "/bin/nosuch arg\n" 0 true
      = (Ctl.exit 0,
          { (boot 0).w with trace := (boot 0).w.trace
              ++ [Ev.sigprocmask SIG_BLOCK [SIGINT, SIGTSTP, SIGCHLD],
              Ev.fork 0, Ev.sigprocmask SIG_UNBLOCK [SIGINT, SIGTSTP, SIGCHLD],
              Ev.setpgid 0 0, Ev.execve "/bin/nosuch" ["/bin/nosuch", "arg"],
              Ev.printf ("/bin/nosuch" ++ ": Command not found\n")] }) :=
  ⟨by decide, eval_child_execfail (boot 0).w "/bin/nosuch arg\n" "/bin/nosuch" ["arg"] 0
    (by decide) (by decide) (by decide)⟩

end Tsh

/-! ## Launching a background job -/

namespace Tsh

theorem builtin_cmd_of_name (w : World) (argv0 : String) (rest : List String)
    (h : argv0 ≠ "quit" ∧ argv0 ≠ "jobs" ∧ argv0 ≠ "bg" ∧ argv0 ≠ "fg") :
    builtin_cmd w (argv0 :: rest) = (Ctl.ret, 0, w) := by
  obtain ⟨h1, h2, h3, h4⟩ := h
  simp [builtin_cmd, h1, h2, h3, h4]

theorem addjob_eq_of_scan_some (w : World) (pid state : Int) (cmdline : String) (i : Nat)
    (hp : 1 ≤ pid) (hs : scan (fun j => j.pid == 0) w.jobs = some i) :
    addjob w pid state cmdline
      = (1, { jobs := w.jobs.set i { pid := pid, jid := w.nextjid, state := state,
                                     cmdline := cmdline },
              nextjid := if w.nextjid + 1 > 16 then 1 else w.nextjid + 1,
              verbose := w.verbose,
              trace := w.trace ++ [Ev.addjob pid state cmdline]
                ++ (if w.verbose ≠ 0 then
                      [Ev.printf ("Added job [" ++ toString w.nextjid ++ "] " ++ toString pid
                        ++ " " ++ cmdline ++ "\n")]
                    else []) }) := by
  have hp' : ¬ pid < 1 := by omega
  by_cases hv : w.verbose = 0
  · simp [addjob, hp', hs, World.log, hv, MAXJOBS]
  · simp [addjob, hp', hs, World.log, hv, MAXJOBS]

theorem pid2jid_of_fresh (w : World) (i : Nat) (job : job_t) (jobs : List job_t)
    (hj : w.jobs = jobs.set i job) (hi : i < jobs.length) (hp : 1 ≤ job.pid)
    (hfresh : ∀ j ∈ jobs, j.pid ≠ job.pid) : pid2jid w job.pid = job.jid := by
  have hs : scan (fun j => j.pid == job.pid) w.jobs = some i := by
    rw [hj]
    refine scan_some_unique _ _ _ (by simpa using hi) ?_ (fun k hk => ?_)
    · rw [slotAt_set_self _ _ _ hi]; simp
    · rw [slotAt_set_ne _ _ _ _ (by omega)]
      simpa using hfresh _ (slotAt_mem jobs k (by omega))
  have hp' : ¬ job.pid < 1 := by omega
  simp only [pid2jid, hp', if_false, hs]
  rw [hj, slotAt_set_self _ _ _ hi]

theorem getLast?_append_two (l : List Ev) (a b : Ev) : (l ++ [a, b]).getLast? = some b := by
  simp [List.getLast?_append]

/-- The background launch when no child state change is pending at the unblock
(the function `eval`): on a table with a free slot, for a background command
line that is not a builtin, when `fork` returns the pid `p > 0` of a new child
(no job has pid `p`), the job `(p, BG, cmdline)` with jid = the previous `nextjid`
goes into the first free slot `i`, `[<jid>] (<p>) <cmdline>` with that jid is the
last output and `waitfg` is not called.  From the initial table the printed jid
is 1 and the table holds exactly that job, in state BG, in slot 0. -/
theorem eval_bg_launch (w : World) (cmdline : String) (argv0 : String) (rest : List String)
    (is_bg p verbose : Int) (execfail : Bool)
    (hparse : parseline cmdline = some (argv0 :: rest, is_bg)) (hbg : is_bg ≠ 0)
    (hnb : argv0 ≠ "quit" ∧ argv0 ≠ "jobs" ∧ argv0 ≠ "bg" ∧ argv0 ≠ "fg")
    (hp : 0 < p) (hfresh : ∀ j ∈ w.jobs, j.pid ≠ p) (hfree : ∃ j ∈ w.jobs, j.pid = 0) :
    (∃ i, i < w.jobs.length ∧ (slotAt w.jobs i).pid = 0 ∧
      (∀ k, k < i → (slotAt w.jobs k).pid ≠ 0) ∧
      eval w cmdline p execfail
        = (Ctl.ret,
            { jobs := w.jobs.set i { pid := p, jid := w.nextjid, state := BG,
                                     cmdline := cmdline },
              nextjid := if w.nextjid + 1 > 16 then 1 else w.nextjid + 1,
              verbose := w.verbose,
              trace := w.trace
                ++ [Ev.sigprocmask SIG_BLOCK [SIGINT, SIGTSTP, SIGCHLD], Ev.fork p,
                    Ev.addjob p BG cmdline]
                ++ (if w.verbose ≠ 0 then
                      [Ev.printf ("Added job [" ++ toString w.nextjid ++ "] " ++ toString p
                        ++ " " ++ cmdline ++ "\n")]
                    else [])
                ++ [Ev.sigprocmask SIG_UNBLOCK [SIGINT, SIGTSTP, SIGCHLD],
                    Ev.printf ("[" ++ toString w.nextjid ++ "] (" ++ toString p ++ ") "
                      ++ cmdline)] })) ∧
    (eval (boot verbose).w cmdline p execfail).1 = Ctl.ret ∧
    (eval (boot verbose).w cmdline p execfail).2.jobs
      = { pid := p, jid := 1, state := BG, cmdline := cmdline }
        :: List.replicate 15 { pid := 0, jid := 0, state := UNDEF, cmdline := "" } ∧
    (eval (boot verbose).w cmdline p execfail).2.trace.getLast?
      = some (Ev.printf ("[" ++ toString (1 : Int) ++ "] (" ++ toString p ++ ") " ++ cmdline)) := by
  have key : ∀ w : World, (∀ j ∈ w.jobs, j.pid ≠ p) → (∃ j ∈ w.jobs, j.pid = 0) →
      ∃ i, i < w.jobs.length ∧ (slotAt w.jobs i).pid = 0 ∧
      (∀ k, k < i → (slotAt w.jobs k).pid ≠ 0) ∧
      scan (fun j => j.pid == 0) w.jobs = some i ∧
      eval w cmdline p execfail
        = (Ctl.ret,
            { jobs := w.jobs.set i { pid := p, jid := w.nextjid, state := BG,
                                     cmdline := cmdline },
              nextjid := if w.nextjid + 1 > 16 then 1 else w.nextjid + 1,
              verbose := w.verbose,
              trace := w.trace
                ++ [Ev.sigprocmask SIG_BLOCK [SIGINT, SIGTSTP, SIGCHLD], Ev.fork p,
                    Ev.addjob p BG cmdline]
                ++ (if w.verbose ≠ 0 then
                      [Ev.printf ("Added job [" ++ toString w.nextjid ++ "] " ++ toString p
                        ++ " " ++ cmdline ++ "\n")]
                    else [])
                ++ [Ev.sigprocmask SIG_UNBLOCK [SIGINT, SIGTSTP, SIGCHLD],
                    Ev.printf ("[" ++ toString w.nextjid ++ "] (" ++ toString p ++ ") "
                      ++ cmdline)] }) := by
    intro w hfresh hfree
    obtain ⟨j0, hj0, hj0p⟩ := hfree
    cases hs : scan (fun j => j.pid == 0) w.jobs with
    | none =>
      have := (scan_none_iff _ _).mp hs j0 hj0
      simp [hj0p] at this
    | some i =>
      obtain ⟨hi, hpi, hlt⟩ := scan_some_spec _ _ _ hs
      refine ⟨i, hi, by simpa using hpi, fun k hk => by simpa using hlt k hk, rfl, ?_⟩
      have hb := builtin_cmd_of_name w argv0 rest hnb
      have hp0 : p ≠ 0 := by omega
      have hadd := addjob_eq_of_scan_some
        ((w.log (Ev.sigprocmask SIG_BLOCK evalMask)).log (Ev.fork p)) p BG cmdline i
        (by omega) hs
      have hjid : pid2jid ((addjob ((w.log (Ev.sigprocmask SIG_BLOCK evalMask)).log (Ev.fork p))
          p BG cmdline).2.log (Ev.sigprocmask SIG_UNBLOCK evalMask)) p = w.nextjid := by
        rw [hadd]
        exact pid2jid_of_fresh _ i { pid := p, jid := w.nextjid, state := BG, cmdline := cmdline }
          w.jobs rfl hi (by show 1 ≤ p; omega) hfresh
      have hev : eval w cmdline p execfail
          = (Ctl.ret, ((addjob ((w.log (Ev.sigprocmask SIG_BLOCK evalMask)).log (Ev.fork p))
              p BG cmdline).2.log (Ev.sigprocmask SIG_UNBLOCK evalMask)).log
              (Ev.printf ("[" ++ toString (pid2jid ((addjob ((w.log (Ev.sigprocmask SIG_BLOCK
                evalMask)).log (Ev.fork p)) p BG cmdline).2.log
                (Ev.sigprocmask SIG_UNBLOCK evalMask)) p) ++ "] (" ++ toString p
                ++ ") " ++ cmdline))) := by
        simp only [eval, hparse, hb, hp0, if_false, hbg, if_true, ne_eq, not_false_eq_true]
      rw [hev, hjid, hadd]
      simp [World.log, evalMask]
  refine ⟨?_, ?_, ?_, ?_⟩
  · obtain ⟨i, h1, h2, h3, _, h5⟩ := key w hfresh hfree
    exact ⟨i, h1, h2, h3, h5⟩
  all_goals
    have hb0 : ∀ j ∈ (boot verbose).w.jobs, j = ⟨0, 0, UNDEF, ""⟩ := by
      intro j hj
      rw [boot_jobs, List.mem_replicate] at hj
      exact hj.2
    have hs0 : scan (fun j => j.pid == 0) (boot verbose).w.jobs = some 0 := by
      rw [boot_jobs]; rfl
    obtain ⟨i, _, _, _, hs, h5⟩ := key (boot verbose).w
      (fun j hj => by rw [hb0 j hj]; show (0 : Int) ≠ p; omega)
      ⟨⟨0, 0, UNDEF, ""⟩, by rw [boot_jobs]; simp [MAXJOBS], rfl⟩
    rw [hs0] at hs
    have hi0 : i = 0 := by simpa using hs.symm
    subst hi0
    rw [h5]
  · show (boot verbose).w.jobs.set 0 _ = _
    rw [boot_jobs]
    rfl
  · show List.getLast? (_ ++ [_, _]) = _
    rw [getLast?_append_two]
    rfl

/-- The launch `sleep 5 &` (child 100) at start-up with nothing pending at the
unblock. -/
theorem eval_bg_launch_witness :
    eval (boot 0).w "sleep 5 &\n" 100 false
      = (Ctl.ret,
          { jobs := { pid := 100, jid := 1, state := BG, cmdline := "sleep 5 &\n" }
              :: List.replicate 15 { pid := 0, jid := 0, state := UNDEF, cmdline := "" },
            nextjid := 2, verbose := 0,
            trace := [Ev.sigprocmask SIG_BLOCK [SIGINT, SIGTSTP, SIGCHLD], Ev.fork 100,
              Ev.addjob 100 BG "sleep 5 &\n",
              Ev.sigprocmask SIG_UNBLOCK [SIGINT, SIGTSTP, SIGCHLD],
              Ev.printf "[1] (100) sleep 5 &\n"] }) ∧
    (eval (boot 0).w "sleep 5 &\n" 100 false).2.jobs
      = { pid := 100, jid := 1, state := BG, cmdline := "sleep 5 &\n" }
        :: List.replicate 15 { pid := 0, jid := 0, state := UNDEF, cmdline := "" } :=
  ⟨by decide,
   (eval_bg_launch (boot 0).w "sleep 5 &\n" "sleep" ["5"] 1 100 0 false (by decide) (by decide)
      (by decide) (by decide) (by decide) (by decide)).2.2.1⟩

end Tsh

/-! ## What the operations leave unchanged -/

namespace Tsh

theorem sameJob_refl (a : job_t) : sameJob a a := ⟨rfl, rfl, rfl⟩

theorem sameJob_set_state (jobs : List job_t) (i k : Nat) (state : Int) :
    sameJob (slotAt (jobs.set i { slotAt jobs i with state := state }) k) (slotAt jobs k) := by
  by_cases hi : i < jobs.length
  · by_cases hk : k = i
    · subst hk; rw [slotAt_set_self _ _ _ hi]; exact ⟨rfl, rfl, rfl⟩
    · rw [slotAt_set_ne _ _ _ _ hk]; exact sameJob_refl _
  · rw [List.set_eq_of_length_le (by omega)]; exact sameJob_refl _

theorem do_bgfg_resume_sameJob (w : World) (argv0 : String) (jobp : Option Nat) (other : String)
    (k : Nat) :
    sameJob (slotAt (do_bgfg_resume w argv0 jobp other).2.jobs k) (slotAt w.jobs k) := by
  unfold do_bgfg_resume
  by_cases hb : argv0 = "bg"
  · simp only [hb, if_true]
    cases jobp with
    | none => exact sameJob_refl _
    | some i => exact sameJob_set_state w.jobs i k BG
  · by_cases hf : argv0 = "fg"
    · subst hf
      have hne : ¬ ("fg" = "bg") := by decide
      simp only [hne, if_false, if_true]
      cases jobp with
      | none => exact sameJob_refl _
      | some i =>
        simp only [waitfg_jobs]
        exact sameJob_set_state w.jobs i k FG
    · simp only [hb, if_false, hf]; exact sameJob_refl _

theorem do_bgfg_sameJob (w : World) (argv : List String) (k : Nat) :
    sameJob (slotAt (do_bgfg w argv).2.jobs k) (slotAt w.jobs k) := by
  unfold do_bgfg
  cases h1 : argv.tail.head? with
  | none => exact sameJob_refl _
  | some argv1 =>
    simp only
    cases hd : argv1.data with
    | nil => exact sameJob_refl _
    | cons c rest =>
      simp only
      by_cases hdig : isdigit c = true
      · simp only [hdig, if_true]
        cases hgp : getjobpid w.jobs (atoi (c :: rest)) with
        | none => exact sameJob_refl _
        | some i => exact do_bgfg_resume_sameJob w _ _ _ k
      · simp only [hdig, Bool.false_eq_true, if_false]
        by_cases hpc : c = '%'
        · simp only [hpc, if_true]
          cases hgj : getjobjid w.jobs (atoi rest) with
          | none => exact sameJob_refl _
          | some i => exact do_bgfg_resume_sameJob w _ _ _ k
        · simp only [hpc, if_false]; exact sameJob_refl _

theorem addjob_keeps_slot (w : World) (pid state : Int) (cmdline : String) (k : Nat)
    (hocc : (slotAt w.jobs k).pid ≠ 0) :
    slotAt (addjob w pid state cmdline).2.jobs k = slotAt w.jobs k := by
  by_cases hp : pid < 1
  · simp [addjob, hp, World.log]
  · cases hs : scan (fun j => j.pid == 0) w.jobs with
    | none => simp [addjob, hp, hs, World.log]
    | some i =>
      rw [(addjob_of_scan_some w pid state cmdline i (by omega) hs).2.1]
      have hfree : (slotAt w.jobs i).pid = 0 := by simpa using (scan_some_spec _ _ _ hs).2.1
      exact slotAt_set_ne _ _ _ _ (fun h => hocc (by rw [h]; exact hfree))

theorem deletejob_slot_cases (w : World) (pid : Int) (k : Nat) :
    slotAt (deletejob w pid).2.jobs k = slotAt w.jobs k ∨
    ((slotAt w.jobs k).pid = pid ∧
      slotAt (deletejob w pid).2.jobs k = { pid := 0, jid := 0, state := UNDEF, cmdline := "" }) := by
  by_cases hp : pid < 1
  · left; rw [deletejob_of_scan_none w pid (Or.inl hp)]; rfl
  · cases hs : scan (fun j => j.pid == pid) w.jobs with
    | none => left; rw [deletejob_of_scan_none w pid (Or.inr hs)]; rfl
    | some i =>
      rw [deletejob_of_scan_some w pid i (by omega) hs]
      obtain ⟨hi, hpi, _⟩ := scan_some_spec _ _ _ hs
      by_cases hk : k = i
      · right
        subst hk
        exact ⟨by simpa using hpi, slotAt_set_self _ _ _ hi⟩
      · left; exact slotAt_set_ne _ _ _ _ hk

/-- C19: a job occupying slot `k` (pid != 0) is still in slot `k` with the same
pid, jid and command text after `addjob`, after `deletejob` of a different pid,
after `do_bgfg` (any arguments, so `bg` and `fg` with any reference) and after
the handler has processed a stop notification; after `addjob` and such a
`deletejob` the whole slot is unchanged.  The slot, and with it the jid, changes
under `deletejob` only when `deletejob` is called with the job's own pid and
clears the slot. -/
theorem jobs_frame (w : World) (k : Nat) (hocc : (slotAt w.jobs k).pid ≠ 0) :
    (∀ pid state cmdline, slotAt (addjob w pid state cmdline).2.jobs k = slotAt w.jobs k) ∧
    (∀ pid, pid ≠ (slotAt w.jobs k).pid →
      slotAt (deletejob w pid).2.jobs k = slotAt w.jobs k) ∧
    (∀ argv, sameJob (slotAt (do_bgfg w argv).2.jobs k) (slotAt w.jobs k)) ∧
    (∀ pid sig, sameJob
      (slotAt (sigchld_handler w [(pid, WaitStatus.stopped sig)]).1.jobs k) (slotAt w.jobs k)) ∧
    (∀ pid, slotAt (deletejob w pid).2.jobs k = slotAt w.jobs k ∨
      ((slotAt w.jobs k).pid = pid ∧
        slotAt (deletejob w pid).2.jobs k
          = { pid := 0, jid := 0, state := UNDEF, cmdline := "" })) := by
  refine ⟨fun pid state cmdline => addjob_keeps_slot w pid state cmdline k hocc,
    fun pid hne => ?_, fun argv => do_bgfg_sameJob w argv k, fun pid sig => ?_,
    fun pid => deletejob_slot_cases w pid k⟩
  · rcases deletejob_slot_cases w pid k with h | ⟨h, _⟩
    · exact h
    · exact absurd h.symm hne
  · by_cases hpos : pid > 0
    · cases hg : getjobpid w.jobs pid with
      | none => simp only [sigchld_handler, hpos, if_true, hg]; exact sameJob_refl _
      | some i =>
        simp only [sigchld_handler, hpos, if_true, hg]
        exact sameJob_set_state w.jobs i k ST
    · simp only [sigchld_handler, hpos, if_false]; exact sameJob_refl _

/-- Witness for C19: job 3 (pid 103, slot 2) of the full sample table under
`deletejob(101)`, `fg %3` and a stop notification for 103. -/
theorem jobs_frame_witness :
    slotAt (deletejob fullWorld 101).2.jobs 2 = slotAt fullWorld.jobs 2 ∧
    sameJob (slotAt (do_bgfg fullWorld ["fg", "%3"]).2.jobs 2) (slotAt fullWorld.jobs 2) ∧
    sameJob (slotAt (sigchld_handler fullWorld [(103, WaitStatus.stopped 20)]).1.jobs 2)
      (slotAt fullWorld.jobs 2) :=
  ⟨(jobs_frame fullWorld 2 (by decide)).2.1 101 (by decide),
   (jobs_frame fullWorld 2 (by decide)).2.2.1 ["fg", "%3"],
   (jobs_frame fullWorld 2 (by decide)).2.2.2.1 103 20⟩

end Tsh

/-! ## The range of job ids -/

namespace Tsh

set_option maxRecDepth 100000 in
/-- C21 (counterexample): after sixteen `addjob` calls, `deletejob(5)` rebases
`nextjid` to 17, so the next `addjob` gives the job with pid 17 the jid 17, which
exceeds MAXJOBS = 16; `deletejob(1)` then sets `nextjid` to 18, which exceeds
MAXJOBS + 1.  The same happens in a session of the shell, where the launch is
acknowledged as `[17] (117) sleep 9 &`. -/
theorem overflowOps_jid_out_of_range :
    opsOK (boot 0).w overflowOps = true ∧
    (runOps (boot 0).w (overflowOps.take 17)).nextjid = 17 ∧
    slotAt (runOps (boot 0).w (overflowOps.take 18)).jobs 4
      = { pid := 17, jid := 17, state := BG, cmdline := "b &\n" } ∧
    slotAt (runOps (boot 0).w overflowOps).jobs 4
      = { pid := 17, jid := 17, state := BG, cmdline := "b &\n" } ∧
    (runOps (boot 0).w overflowOps).nextjid = 18 ∧
    ¬ (∀ j ∈ (runOps (boot 0).w overflowOps).jobs,
        j.pid ≠ 0 → 1 ≤ j.jid ∧ j.jid ≤ (MAXJOBS : Int)) ∧
    ¬ ((runOps (boot 0).w overflowOps).nextjid ≤ (MAXJOBS : Int) + 1) ∧
    (run (boot 0) overflowEvents).map
        (fun s => (s.ctl, slotAt s.w.jobs 4, s.w.nextjid))
      = some (Ctl.ret, { pid := 117, jid := 17, state := BG, cmdline := "sleep 9 &\n" }, 18) ∧
    (run (boot 0) overflowEvents).map
        (fun s => s.w.trace.contains (Ev.printf "[17] (117) sleep 9 &\n"))
      = some true := by
  refine ⟨by decide, by decide, by decide, by decide, by decide, by decide, by decide,
    by decide, by decide⟩

theorem addjob_jid_lower (w : World) (pid state : Int) (cmdline : String)
    (hn : 1 ≤ w.nextjid) (hj : ∀ j ∈ w.jobs, j.pid ≠ 0 → 1 ≤ j.jid) :
    1 ≤ (addjob w pid state cmdline).2.nextjid ∧
    ∀ j ∈ (addjob w pid state cmdline).2.jobs, j.pid ≠ 0 → 1 ≤ j.jid := by
  by_cases hp : pid < 1
  · have h : addjob w pid state cmdline = (0, w.log (Ev.addjob pid state cmdline)) := by
      simp [addjob, hp]
    rw [h]; exact ⟨hn, hj⟩
  · cases hs : scan (fun j => j.pid == 0) w.jobs with
    | none =>
      have h : addjob w pid state cmdline
          = (0, (w.log (Ev.addjob pid state cmdline)).log
              (Ev.printf "Tried to create too many jobs\n")) := by
        simp [addjob, hp, hs, World.log]
      rw [h]; exact ⟨hn, hj⟩
    | some i =>
      obtain ⟨_, h2, h3, _⟩ := addjob_of_scan_some w pid state cmdline i (by omega) hs
      rw [h2, h3]
      refine ⟨by split <;> omega, fun j hm hne => ?_⟩
      rcases List.mem_or_eq_of_mem_set hm with h | h
      · exact hj j h hne
      · subst h; exact hn

theorem deletejob_jid_lower (w : World) (pid : Int)
    (hn : 1 ≤ w.nextjid) (hj : ∀ j ∈ w.jobs, j.pid ≠ 0 → 1 ≤ j.jid) :
    1 ≤ (deletejob w pid).2.nextjid ∧
    ∀ j ∈ (deletejob w pid).2.jobs, j.pid ≠ 0 → 1 ≤ j.jid := by
  by_cases hp : pid < 1
  · rw [deletejob_of_scan_none w pid (Or.inl hp)]; exact ⟨hn, hj⟩
  · cases hs : scan (fun j => j.pid == pid) w.jobs with
    | none => rw [deletejob_of_scan_none w pid (Or.inr hs)]; exact ⟨hn, hj⟩
    | some i =>
      rw [deletejob_of_scan_some w pid i (by omega) hs]
      refine ⟨?_, fun j hm hne => ?_⟩
      · have := maxjid_nonneg (w.jobs.set i (clearjob (slotAt w.jobs i)))
        show 1 ≤ maxjid _ + 1
        omega
      · rcases List.mem_or_eq_of_mem_set hm with h | h
        · exact hj j h hne
        · subst h; exact absurd rfl hne

theorem runOps_jid_lower (ops : List JobOp) (w : World)
    (hn : 1 ≤ w.nextjid) (hj : ∀ j ∈ w.jobs, j.pid ≠ 0 → 1 ≤ j.jid) :
    1 ≤ (runOps w ops).nextjid ∧ ∀ j ∈ (runOps w ops).jobs, j.pid ≠ 0 → 1 ≤ j.jid := by
  induction ops generalizing w with
  | nil => exact ⟨hn, hj⟩
  | cons op ops ih =>
    cases op with
    | add pid state cmdline =>
      obtain ⟨a, b⟩ := addjob_jid_lower w pid state cmdline hn hj
      exact ih _ a b
    | del pid =>
      obtain ⟨a, b⟩ := deletejob_jid_lower w pid hn hj
      exact ih _ a b

/-- C21 (amended): in every job table reached from the initial table (`initjobs`,
`nextjid` = 1) by any sequence of `addjob` and `deletejob` calls, every occupied
slot has a jid of at least 1 and `nextjid` is at least 1. -/
theorem reachable_jid_at_least_one (verbose : Int) (ops : List JobOp) :
    1 ≤ (runOps (boot verbose).w ops).nextjid ∧
    ∀ j ∈ (runOps (boot verbose).w ops).jobs, j.pid ≠ 0 → 1 ≤ j.jid := by
  refine runOps_jid_lower ops (boot verbose).w (show (1 : Int) ≤ 1 from le_refl _)
    (fun j hj hne => ?_)
  rw [boot_jobs, List.mem_replicate] at hj
  exact absurd (by rw [hj.2]) hne

end Tsh

/-! ## The background acknowledgment and a child that exits first -/

namespace Tsh

theorem eval_with_sigchld_nil (w : World) (cmdline : String) (forkret : Int) (execfail : Bool) :
    eval_with_sigchld w cmdline forkret execfail [] = eval w cmdline forkret execfail := by
  unfold eval_with_sigchld eval
  rfl

/-- C18 (evaluation): `/bin/echo hi &` is entered at start-up and its child 100
exits before the parent unblocks the signals.  SIGCHLD is pending; at
`sigprocmask(SIG_UNBLOCK)` the handler reaps 100 and deletes the job that
`addjob` put into slot 0 with jid 1.  The acknowledgment, printed afterwards
with `pid2jid(100)`, reads `[0] (100) /bin/echo hi &`, and the table is empty
again. -/
theorem eval_bg_child_exits_first :
    parseline "/bin/echo hi &\n" = some (["/bin/echo", "hi"], 1) ∧
    slotAt (addjob (boot 0).w 100 BG "/bin/echo hi &\n").2.jobs 0
      = { pid := 100, jid := 1, state := BG, cmdline := "/bin/echo hi &\n" } ∧
    eval_with_sigchld (boot 0).w "/bin/echo hi &\n" 100 false [(100, WaitStatus.exited 0)]
      = (Ctl.ret, { (boot 0).w with
          trace := [Ev.sigprocmask SIG_BLOCK evalMask, Ev.fork 100,
            Ev.addjob 100 BG "/bin/echo hi &\n", Ev.sigprocmask SIG_UNBLOCK evalMask,
            Ev.deletejob 100, Ev.printf "[0] (100) /bin/echo hi &\n"] }) ∧
    (∀ j ∈ (eval_with_sigchld (boot 0).w "/bin/echo hi &\n" 100 false
        [(100, WaitStatus.exited 0)]).2.jobs, j.pid = 0) := by
  refine ⟨by decide, by decide, by decide, by decide⟩

end Tsh

/-! ## parseline: the tokens and the background flag -/

namespace Tsh

theorem strchr_append (c : Char) (pre post : List Char) (h : c ∉ pre) :
    strchr c (pre ++ c :: post) = some (pre, post) := by
  induction pre with
  | nil => simp [strchr]
  | cons x xs ih =>
    have hx : x ≠ c := fun e => h (by simp [e])
    have hxs : c ∉ xs := fun e => h (by simp [e])
    simp [strchr, hx, ih hxs]

theorem strchr_none (c : Char) (l : List Char) (h : c ∉ l) : strchr c l = none := by
  induction l with
  | nil => rfl
  | cons x xs ih =>
    have hx : x ≠ c := fun e => h (by simp [e])
    have hxs : c ∉ xs := fun e => h (by simp [e])
    simp [strchr, hx, ih hxs]

theorem skipSpaces_length_le (l : List Char) : (skipSpaces l).length ≤ l.length :=
  (List.dropWhile_suffix _).length_le

theorem skipSpaces_cons_of_ne (c : Char) (l : List Char) (h : c ≠ ' ') :
    skipSpaces (c :: l) = c :: l := by
  simp [skipSpaces, List.dropWhile_cons, h]

theorem skipSpaces_cons_space (l : List Char) : skipSpaces (' ' :: l) = skipSpaces l := by
  simp [skipSpaces, List.dropWhile_cons]

theorem parseloop_nil (fuel : Nat) : parseloop fuel [] = [] := by
  cases fuel <;> rfl

/-- The loop of `parseline` computes the specification's tokens, in each of
the three reading positions, when the fuel exceeds the length of the buffer. -/
theorem parseloop_eq_specTokensFrom (s : List Char) :
    (∀ fuel, (skipSpaces (s ++ [' '])).length < fuel →
      parseloop fuel (skipSpaces (s ++ [' '])) = specTokensFrom TokState.between s) ∧
    (∀ a t fuel, a ≠ QUOTE → a ≠ ' ' → ' ' ∉ t → t.length + s.length + 2 < fuel →
      parseloop fuel (a :: (t ++ s ++ [' '])) = specTokensFrom (TokState.word (a :: t)) s) ∧
    (∀ acc fuel, QUOTE ∉ acc → acc.length + s.length + 2 < fuel →
      parseloop fuel (QUOTE :: (acc ++ s ++ [' '])) = specTokensFrom (TokState.quoted acc) s) := by
  have hq : QUOTE ≠ ' ' := by decide
  induction s with
  | nil =>
    refine ⟨?_, ?_, ?_⟩
    · intro fuel _
      have : skipSpaces ([] ++ [' ']) = [] := by decide
      rw [this, parseloop_nil]; rfl
    · intro a t fuel ha hsp ht hf
      obtain ⟨k, rfl⟩ : ∃ k, fuel = k + 1 := ⟨fuel - 1, by omega⟩
      have hmem : ' ' ∉ a :: t := by
        intro h; rcases List.mem_cons.1 h with h | h
        · exact hsp h.symm
        · exact ht h
      have h1 : strchr ' ' (a :: (t ++ [] ++ [' '])) = some (a :: t, []) := by
        have := strchr_append ' ' (a :: t) [] hmem
        simpa using this
      simp only [parseloop, nextDelim, if_neg ha, h1]
      have : skipSpaces [] = [] := rfl
      rw [this, parseloop_nil]; rfl
    · intro acc fuel hacc hf
      obtain ⟨k, rfl⟩ : ∃ k, fuel = k + 1 := ⟨fuel - 1, by omega⟩
      have h1 : strchr QUOTE (acc ++ [] ++ [' ']) = none := by
        apply strchr_none
        intro h
        simp only [List.append_nil, List.mem_append, List.mem_singleton] at h
        rcases h with h | h
        · exact hacc h
        · exact hq h
      simp only [parseloop, nextDelim, if_true, h1]
      rfl
  | cons c cs ih =>
    obtain ⟨ihB, ihW, ihQ⟩ := ih
    refine ⟨?_, ?_, ?_⟩
    · intro fuel hf
      by_cases hc : c = ' '
      · subst hc
        have e : skipSpaces ((' ' :: cs) ++ [' ']) = skipSpaces (cs ++ [' ']) :=
          skipSpaces_cons_space _
        rw [e] at hf ⊢
        rw [ihB fuel hf]
        simp [specTokensFrom]
      · have e : skipSpaces ((c :: cs) ++ [' ']) = c :: (cs ++ [' ']) :=
          skipSpaces_cons_of_ne c _ hc
        rw [e] at hf ⊢
        simp only [List.length_cons, List.length_append, List.length_singleton,
          List.length_nil] at hf
        by_cases hcq : c = QUOTE
        · subst hcq
          have := ihQ [] fuel (by simp) (by simp; omega)
          simp only [List.nil_append] at this
          rw [this]
          simp [specTokensFrom, hq]
        · have := ihW c [] fuel hcq hc (by simp) (by simp; omega)
          simp only [List.nil_append] at this
          rw [this]
          simp [specTokensFrom, hc, hcq]
    · intro a t fuel ha hsp ht hf
      simp only [List.length_cons] at hf
      have hmem : ' ' ∉ a :: t := by
        intro h; rcases List.mem_cons.1 h with h | h
        · exact hsp h.symm
        · exact ht h
      by_cases hc : c = ' '
      · subst hc
        obtain ⟨k, rfl⟩ : ∃ k, fuel = k + 1 := ⟨fuel - 1, by omega⟩
        have h1 : strchr ' ' (a :: (t ++ ' ' :: cs ++ [' '])) = some (a :: t, cs ++ [' ']) := by
          have := strchr_append ' ' (a :: t) (cs ++ [' ']) hmem
          simpa using this
        have hlen := skipSpaces_length_le (cs ++ [' '])
        simp only [List.length_append, List.length_singleton] at hlen
        simp only [parseloop, nextDelim, if_neg ha, h1]
        rw [ihB k (by omega)]
        simp [specTokensFrom]
      · have := ihW a (t ++ [c]) fuel ha hsp
          (by
            intro h
            rcases List.mem_append.1 h with h | h
            · exact ht h
            · exact hc (List.mem_singleton.1 h).symm)
          (by simp; omega)
        have e : a :: (t ++ c :: cs ++ [' ']) = a :: (t ++ [c] ++ cs ++ [' ']) := by simp
        rw [e, this]
        simp [specTokensFrom, hc]
    · intro acc fuel hacc hf
      simp only [List.length_cons] at hf
      by_cases hc : c = QUOTE
      · subst hc
        obtain ⟨k, rfl⟩ : ∃ k, fuel = k + 1 := ⟨fuel - 1, by omega⟩
        have h1 : strchr QUOTE (acc ++ QUOTE :: cs ++ [' ']) = some (acc, cs ++ [' ']) := by
          have := strchr_append QUOTE acc (cs ++ [' ']) hacc
          simpa using this
        have hlen := skipSpaces_length_le (cs ++ [' '])
        simp only [List.length_append, List.length_singleton] at hlen
        simp only [parseloop, nextDelim, if_true, h1]
        rw [ihB k (by omega)]
        simp [specTokensFrom]
      · have := ihQ (acc ++ [c]) fuel
          (by
            intro h
            rcases List.mem_append.1 h with h | h
            · exact hacc h
            · exact hc (List.mem_singleton.1 h).symm)
          (by simp; omega)
        have e : QUOTE :: (acc ++ c :: cs ++ [' ']) = QUOTE :: (acc ++ [c] ++ cs ++ [' ']) := by
          simp
        rw [e, this]
        simp [specTokensFrom, hc]

/-- The argv array that the loop of `parseline` builds for the line `text`
followed by a newline holds the specification's tokens of `text`. -/
theorem parseloop_eq_specTokens (text : List Char) :
    parseloop ((skipSpaces (text ++ [' '])).length + 1) (skipSpaces (text ++ [' ']))
      = specTokens text :=
  (parseloop_eq_specTokensFrom text).1 _ (Nat.lt_succ_self _)

end Tsh

namespace Tsh

set_option maxRecDepth 1000000 in
/-- C20 (counterexample): the last token of `ls &x` is `&x`, not `&`, yet
`parseline` returns 1 and removes the token from argv.  The non-blank line that
consists of an opening quote and `abc` has no token, and `parseline` returns 1
for it although no token `&` ends it.  For a line of 128 tokens `a` the
terminating NULL is written beyond the MAXARGS entries of argv, and the result
is undefined. -/
theorem parseline_amp_prefix :
    specTokens "ls &x".data = ["ls".data, "&x".data] ∧
    parseline "ls &x\n" = some (["ls"], 1) ∧
    ¬ ((parseline "ls &x\n").map (fun r => r.2) = some 1 ↔
        (specTokens "ls &x".data).getLast? = some "&".data) ∧
    specTokens (QUOTE :: "abc".data) = [] ∧
    parseline (String.mk (QUOTE :: "abc\n".data)) = some ([], 1) ∧
    ¬ ((parseline (String.mk (QUOTE :: "abc\n".data))).map (fun r => r.2) = some 1 ↔
        (specTokens (QUOTE :: "abc".data)).getLast? = some "&".data) ∧
    (specTokens (List.replicate 128 "a ".data).flatten).length = 128 ∧
    parseline (String.mk ((List.replicate 128 "a ".data).flatten ++ ['\n'])) = none := by
  refine ⟨by decide, by decide, by decide, by decide, by decide, by decide, by decide,
    by decide⟩

/-- C20 (amended): let `text` be any text and let its tokens be the ones of the
specification (`specTokens`: separated by spaces; a token opened by a single
quote runs to the closing quote; the text after an unclosed quote is dropped),
fewer than MAXARGS = 128 of them.  For the command line `text` followed by a
newline, `parseline` returns 1 with an empty argv if there is no token; returns
1 with argv holding the tokens before the last one if the last token begins
with `&`; and otherwise returns 0 with argv holding every token.  Hence it
returns 1 if and only if the line has no token or its last token begins with
`&`. -/
theorem parseline_background (text : List Char)
    (hargs : (specTokens text).length < MAXARGS) :
    parseline (String.mk (text ++ ['\n']))
      = (match (specTokens text).getLast? with
         | none => some ([], 1)
         | some last =>
           if last.head? = some '&'
           then some ((specTokens text).dropLast.map String.mk, 1)
           else some ((specTokens text).map String.mk, 0)) ∧
    ((parseline (String.mk (text ++ ['\n']))).map (fun r => r.2) = some 1 ↔
      (specTokens text = [] ∨
        ∃ last, (specTokens text).getLast? = some last ∧ last.head? = some '&')) := by
  have h1 : parseline (String.mk (text ++ ['\n']))
      = (match (specTokens text).getLast? with
         | none => some ([], 1)
         | some last =>
           if last.head? = some '&'
           then some ((specTokens text).dropLast.map String.mk, 1)
           else some ((specTokens text).map String.mk, 0)) := by
    unfold parseline
    have hd : (String.mk (text ++ ['\n'])).data.reverse = '\n' :: text.reverse := by simp
    rw [hd]
    simp only [List.reverse_reverse]
    rw [parseloop_eq_specTokens]
    have hlen : ¬ (specTokens text).length ≥ MAXARGS := by omega
    rw [if_neg hlen]
    rcases List.eq_nil_or_concat (specTokens text) with h | ⟨front, last, h⟩
    · rw [h]; rfl
    · rw [h]
      simp
  refine ⟨h1, ?_⟩
  rw [h1]
  rcases List.eq_nil_or_concat (specTokens text) with h | ⟨front, last, h⟩
  · rw [h]; simp
  · rw [h]
    by_cases hc : last.head? = some '&'
    · simp [hc]
    · simp [hc]

/-- Witness for C20 (amended): `sleep 5 &` and `/bin/ls -l`. -/
theorem parseline_background_witness :
    (specTokens "sleep 5 &".data).length < MAXARGS ∧
    parseline "sleep 5 &\n" = some (["sleep", "5"], 1) ∧
    parseline "/bin/ls -l\n" = some (["/bin/ls", "-l"], 0) ∧
    ((parseline (String.mk ("sleep 5 &".data ++ ['\n']))).map (fun r => r.2) = some 1 ↔
      (specTokens "sleep 5 &".data = [] ∨
        ∃ last, (specTokens "sleep 5 &".data).getLast? = some last ∧
          last.head? = some '&')) :=
  ⟨by decide, by decide, by decide, (parseline_background "sleep 5 &".data (by decide)).2⟩

end Tsh
